import Mathlib

/-!
Verification of the knowledge-base build pipeline and hybrid retrieval engine.

Conventions of the shallow embedding:
* Text is modelled as `List Char` (abbreviated `Str`); a JavaScript string
  `s` is written `("s").data`.
* JavaScript numbers that carry scores are modelled as `ℚ`; counts and
  indices as `ℕ` (or `ℤ` where the source compares against negatives).
* The JavaScript regular expressions of the secret scanner are embedded as
  explicit matchers built from combinators (`patLit`, `patClsExact`, ...).
  Each of the nine patterns uses greedy repetition whose character class is
  disjoint from what follows, so the greedy, non-backtracking combinators
  compute exactly the JavaScript match.
* External collaborators (the lunr full-text library, the embedding model,
  the network fetch) are parameters of the functions that call them, as the
  specification treats them as injected black boxes.
-/

abbrev Str := List Char

/-- JavaScript whitespace (`\s`) restricted to its ASCII part: space, tab,
newline, carriage return, vertical tab, form feed. -/
def isWsJS (c : Char) : Bool :=
  c = ' ' || c = '\t' || c = '\n' || c = '\r' || c.toNat = 11 || c.toNat = 12

/-- `String.prototype.trim`: strip whitespace from both ends. -/
def jsTrim (s : Str) : Str :=
  ((s.dropWhile isWsJS).reverse.dropWhile isWsJS).reverse

/-- `[a-zA-Z0-9]`. -/
def isAlphaNumChar (c : Char) : Bool :=
  (48 ≤ c.toNat && c.toNat ≤ 57) || (65 ≤ c.toNat && c.toNat ≤ 90) ||
    (97 ≤ c.toNat && c.toNat ≤ 122)

/-- `[0-9]`. -/
def isDigitChar (c : Char) : Bool := 48 ≤ c.toNat && c.toNat ≤ 57

/-- `[A-Z]`. -/
def isUpperChar (c : Char) : Bool := 65 ≤ c.toNat && c.toNat ≤ 90

/-- ASCII lower-casing, the effect of `toLowerCase` on the ASCII strings the
code compares. -/
def asciiLower (c : Char) : Char :=
  if 65 ≤ c.toNat && c.toNat ≤ 90 then Char.ofNat (c.toNat + 32) else c

def lowerStr (s : Str) : Str := s.map asciiLower

/-- Worker of `splitWs`; the fuel only serves structural recursion and is
never exhausted when it starts at the length of the input. -/
def splitWsAux : Nat → Str → Str → List Str
  | 0, _, acc => [acc.reverse]
  | fuel + 1, s, acc =>
    match s with
    | [] => [acc.reverse]
    | c :: rest =>
      if isWsJS c then
        acc.reverse :: splitWsAux fuel (rest.dropWhile isWsJS) []
      else
        splitWsAux fuel rest (c :: acc)

/-- `String.prototype.split(/\s+/)`: segments between maximal whitespace
runs; a leading run yields an initial empty segment, a trailing run a final
empty one, and the empty string yields `[[]]`. -/
def splitWs (s : Str) : List Str := splitWsAux (s.length + 1) s []

/-! ### Pattern matchers

A `PatAt` tries to match a regular expression at the head of a string and
returns the number of characters consumed. -/

def PatAt := Str → Option Nat

/-- A literal. -/
def patLit (w : Str) : PatAt := fun s =>
  if w.isPrefixOf s then some w.length else none

/-- A literal under the `i` flag. -/
def patLitCI (w : Str) : PatAt := fun s =>
  if (lowerStr w).isPrefixOf (lowerStr (s.take w.length)) && w.length ≤ s.length
  then some w.length else none

/-- One character of a class. -/
def patCls (f : Char → Bool) : PatAt := fun s =>
  match s with
  | [] => none
  | c :: _ => if f c then some 1 else none

/-- `X{n}`: exactly `n` characters of a class. -/
def patClsExact (f : Char → Bool) (n : Nat) : PatAt := fun s =>
  if n ≤ s.length && (s.take n).all f then some n else none

/-- `X{k,}`, `X+` (`k = 1`) and `X*` (`k = 0`): greedy, at least `k`
characters of a class. All nine patterns follow such a repetition with a
character outside the class, so taking the maximal run is exact. -/
def patClsAtLeast (f : Char → Bool) (k : Nat) : PatAt := fun s =>
  let n := (s.takeWhile f).length
  if k ≤ n then some n else none

/-- Sequencing. -/
def patSeq (p q : PatAt) : PatAt := fun s =>
  match p s with
  | none => none
  | some n =>
    match q (s.drop n) with
    | none => none
    | some m => some (n + m)

/-- `(X)?`: the optional group; its first character is disjoint from what
follows the group in every pattern below, matching JavaScript backtracking. -/
def patOpt (p : PatAt) : PatAt := fun s =>
  match p s with
  | some n => some n
  | none => some 0

/-- Leftmost match: the start position and the consumed length. -/
def findMatch (p : PatAt) : Str → Option (Nat × Nat)
  | [] =>
    match p [] with
    | some n => some (0, n)
    | none => none
  | c :: rest =>
    match p (c :: rest) with
    | some n => some (0, n)
    | none => (findMatch p rest).map (fun r => (r.1 + 1, r.2))

/-- Worker of `countMatches`; each step consumes at least one character, so
fuel at the length of the input plus one is never exhausted. -/
def countMatchesAux (p : PatAt) : Nat → Str → Nat
  | 0, _ => 0
  | fuel + 1, s =>
    match findMatch p s with
    | none => 0
    | some r =>
      1 + if s = [] then 0 else countMatchesAux p fuel (s.drop (r.1 + max r.2 1))

/-- The number of non-overlapping matches of a global regex, as
`String.prototype.match(p)` with the `g` flag counts them. -/
def countMatches (p : PatAt) (s : Str) : Nat := countMatchesAux p (s.length + 1) s

/-- Worker of `replacePat`, with the same fuel convention. -/
def replacePatAux (p : PatAt) (repl : Str) : Nat → Str → Str
  | 0, s => s
  | fuel + 1, s =>
    match findMatch p s with
    | none => s
    | some r =>
      s.take r.1 ++ repl ++ (if r.2 = 0 then (s.drop r.1).take 1 else []) ++
        (if s = [] then [] else replacePatAux p repl fuel (s.drop (r.1 + max r.2 1)))

/-- `String.prototype.replace(p, repl)` with the `g` flag: replace every
non-overlapping leftmost match. An empty match advances one character, as
the JavaScript `lastIndex` does. -/
def replacePat (p : PatAt) (repl : Str) (s : Str) : Str :=
  replacePatAux p repl (s.length + 1) s

/-! ### The secret patterns of `secret-scan.ts` -/

/-- `[a-zA-Z0-9_]` (`\w`). -/
def isWordChar (c : Char) : Bool := isAlphaNumChar c || c = '_'

/-- `[a-zA-Z0-9_-]`. -/
def isTokenChar (c : Char) : Bool := isAlphaNumChar c || c = '_' || c = '-'

/-- `["']`. -/
def isQuoteChar (c : Char) : Bool := c = '"' || c = '\''

/-- `/ghp_[a-zA-Z0-9]{36}/g` -/
def patGhp : PatAt := patSeq (patLit ("ghp_").data) (patClsExact isAlphaNumChar 36)

/-- `/github_pat_[a-zA-Z0-9_]{82}/g` -/
def patGithubPat : PatAt :=
  patSeq (patLit ("github_pat_").data) (patClsExact isWordChar 82)

/-- `/AKIA[0-9A-Z]{16}/g` -/
def patAkia : PatAt :=
  patSeq (patLit ("AKIA").data)
    (patClsExact (fun c => isDigitChar c || isUpperChar c) 16)

/-- `/aws_access_key_id\s*=\s*[A-Z0-9]{20}/gi`; under `i` the class
`[A-Z0-9]` admits both cases. -/
def patAwsAccessKey : PatAt :=
  patSeq (patLitCI ("aws_access_key_id").data)
    (patSeq (patClsAtLeast isWsJS 0)
      (patSeq (patLit ("=").data)
        (patSeq (patClsAtLeast isWsJS 0) (patClsExact isAlphaNumChar 20))))

/-- `/aws_secret_access_key\s*=\s*[a-zA-Z0-9/+=]{40}/gi` -/
def patAwsSecretKey : PatAt :=
  patSeq (patLitCI ("aws_secret_access_key").data)
    (patSeq (patClsAtLeast isWsJS 0)
      (patSeq (patLit ("=").data)
        (patSeq (patClsAtLeast isWsJS 0)
          (patClsExact
            (fun c => isAlphaNumChar c || c = '/' || c = '+' || c = '=') 40))))

/-- `/eyJ[a-zA-Z0-9_-]+\.eyJ[a-zA-Z0-9_-]+\.[a-zA-Z0-9_-]+/g` -/
def patJwt : PatAt :=
  patSeq (patLit ("eyJ").data)
    (patSeq (patClsAtLeast isTokenChar 1)
      (patSeq (patLit (".").data)
        (patSeq (patLit ("eyJ").data)
          (patSeq (patClsAtLeast isTokenChar 1)
            (patSeq (patLit (".").data) (patClsAtLeast isTokenChar 1))))))

/-- `-----BEGIN\s+(RSA\s+)?PRIVATE KEY-----` (also used with END). -/
def patKeyFence (word : Str) : PatAt :=
  patSeq (patLit (("-----").data ++ word))
    (patSeq (patClsAtLeast isWsJS 1)
      (patSeq (patOpt (patSeq (patLit ("RSA").data) (patClsAtLeast isWsJS 1)))
        (patLit ("PRIVATE KEY-----").data)))

/-- `/-----BEGIN\s+(RSA\s+)?PRIVATE KEY-----[\s\S]*?-----END\s+(RSA\s+)?PRIVATE KEY-----/g`;
the lazy `[\s\S]*?` stops at the earliest END fence. -/
def patPrivateKey : PatAt := fun s =>
  match patKeyFence ("BEGIN").data s with
  | none => none
  | some n =>
    match findMatch (patKeyFence ("END").data) (s.drop n) with
    | none => none
    | some r => some (n + r.1 + r.2)

/-- `/password\s*[:=]\s*["']?[^\s"']{8,}["']?/gi` -/
def patPassword : PatAt :=
  patSeq (patLitCI ("password").data)
    (patSeq (patClsAtLeast isWsJS 0)
      (patSeq (patCls (fun c => c = ':' || c = '='))
        (patSeq (patClsAtLeast isWsJS 0)
          (patSeq (patOpt (patCls isQuoteChar))
            (patSeq (patClsAtLeast (fun c => !isWsJS c && !isQuoteChar c) 8)
              (patOpt (patCls isQuoteChar)))))))

/-- `/api[_-]?key\s*[:=]\s*["']?[a-zA-Z0-9_-]{20,}["']?/gi` -/
def patApiKey : PatAt :=
  patSeq (patLitCI ("api").data)
    (patSeq (patOpt (patCls (fun c => c = '_' || c = '-')))
      (patSeq (patLitCI ("key").data)
        (patSeq (patClsAtLeast isWsJS 0)
          (patSeq (patCls (fun c => c = ':' || c = '='))
            (patSeq (patClsAtLeast isWsJS 0)
              (patSeq (patOpt (patCls isQuoteChar))
                (patSeq (patClsAtLeast isTokenChar 20)
                  (patOpt (patCls isQuoteChar)))))))))

/-- The `SECRET_PATTERNS` table: pattern and category name, in source order. -/
def SECRET_PATTERNS : List (PatAt × Str) :=
  [ (patGhp, ("GitHub Personal Access Token").data),
    (patGithubPat, ("GitHub Fine-grained Token").data),
    (patAkia, ("AWS Access Key ID").data),
    (patAwsAccessKey, ("AWS Access Key").data),
    (patAwsSecretKey, ("AWS Secret Key").data),
    (patJwt, ("JWT Token").data),
    (patPrivateKey, ("Private Key").data),
    (patPassword, ("Password").data),
    (patApiKey, ("API Key").data) ]

def REDACTION_MARKER : Str := ("[REDACTED]").data

def highEntropyName : Str := ("High-entropy string").data

/-! ### Entropy test

`calculateEntropy` computes the Shannon entropy `-∑ (k/n)·log2 (k/n)` of the
character frequencies `k` of a string of length `n`.  `isHighEntropySecret`
compares it against the threshold `3.5`.  Over the reals,
`entropy > 3.5  ↔  n·log2 n - ∑ k·log2 k > 3.5·n  ↔  n^(2n) > 2^(7n) · ∏ k^(2k)`,
so the comparison is embedded as that exact inequality over `ℕ`. -/

/-- Character frequencies, in first-occurrence order. -/
def charCounts (s : Str) : List (Char × Nat) :=
  s.foldl (fun acc c =>
    if acc.any (fun e => e.1 = c) then
      acc.map (fun e => if e.1 = c then (e.1, e.2 + 1) else e)
    else acc ++ [(c, 1)]) []

/-- `∏ k^(2k)` over the frequencies. -/
def countProd (cs : List (Char × Nat)) : Nat :=
  cs.foldl (fun p e => p * e.2 ^ (2 * e.2)) 1

/-- The exact characterisation of `calculateEntropy(s) > 3.5`. -/
def entropyGtThreshold (s : Str) : Bool :=
  2 ^ (7 * s.length) * countProd (charCounts s) < s.length ^ (2 * s.length)

/-- `isHighEntropySecret`: length at least 16 and entropy above 3.5. -/
def isHighEntropySecret (s : Str) : Bool :=
  if s.length < 16 then false else entropyGtThreshold s

/-! ### `scanAndRedact` -/

structure SecretScanResult where
  hasSecrets : Bool
  redactedContent : Str
  secretsFound : List (Str × Nat)
deriving DecidableEq, Repr

/-- One iteration of the `SECRET_PATTERNS` loop: matches are counted on the
original `content`, the replacement runs on the evolving redacted text. -/
def scanPatternsStep (content : Str) (st : SecretScanResult)
    (pn : PatAt × Str) : SecretScanResult :=
  let m := countMatches pn.1 content
  if 0 < m then
    { hasSecrets := true,
      secretsFound := st.secretsFound ++ [(pn.2, m)],
      redactedContent := replacePat pn.1 REDACTION_MARKER st.redactedContent }
  else st

/-- Append the high-entropy entry with count 0 unless already present
(`!secretsFound.find(...)` then `push`). -/
def ensureEntropyEntry (found : List (Str × Nat)) : List (Str × Nat) :=
  if found.any (fun e => e.1 = highEntropyName) then found
  else found ++ [(highEntropyName, 0)]

/-- Increment the count at the first index whose type is the high-entropy
name (`findIndex` then `count++`). -/
def bumpEntropyCount : List (Str × Nat) → List (Str × Nat)
  | [] => []
  | e :: rest =>
    if e.1 = highEntropyName then (e.1, e.2 + 1) :: rest
    else e :: bumpEntropyCount rest

/-- One iteration of the high-entropy word loop: the word is stripped to its
alphanumeric characters, and on detection every occurrence of that stripped
form is replaced in the evolving redacted text. -/
def scanWordsStep (st : SecretScanResult) (word : Str) : SecretScanResult :=
  let cleaned := word.filter isAlphaNumChar
  if isHighEntropySecret cleaned && 16 ≤ cleaned.length then
    { hasSecrets := true,
      secretsFound := bumpEntropyCount (ensureEntropyEntry st.secretsFound),
      redactedContent :=
        replacePat (patLit cleaned) REDACTION_MARKER st.redactedContent }
  else st

/-- `scanAndRedact` of `secret-scan.ts`: the pattern loop over the fixed
table, then the high-entropy loop over the whitespace-split words of the
original content. -/
def scanAndRedact (content : Str) : SecretScanResult :=
  let st0 : SecretScanResult :=
    { hasSecrets := false, redactedContent := content, secretsFound := [] }
  let st1 := SECRET_PATTERNS.foldl (scanPatternsStep content) st0
  (splitWs content).foldl scanWordsStep st1

/-! ### Concrete inputs for the secret scanner -/

/-- A single token whose alphanumeric-stripped form has 17 distinct
characters (entropy `log2 17 > 3.5`) but, containing a semicolon, differs
from that stripped form. -/
def entropyProbe : Str := ("Zq7;Wx9Kt3mVs5Ny1c").data

/-- Three words: a high-entropy token glued behind `abcdefgh;`, the same
token alone, and a low-entropy word that happens to contain the text
`abcdefghREDACTED`. -/
def idempotenceProbe : Str :=
  ("abcdefgh;Zq7Wx9Kt3mVs5Ny1 Zq7Wx9Kt3mVs5Ny1 abcdefghREDACTEDaaaaaaaa").data

/-- Value of a big-endian decimal digit list. -/
def digitsVal (l : List Char) : Nat :=
  l.foldl (fun a c => a * 10 + (c.toNat - 48)) 0

/-- `String.prototype.split(sep)` for a one-character separator: segments
between separator occurrences, empty segments kept, `[""]` on the empty
string. -/
def splitOnChar (sep : Char) : Str → List Str
  | [] => [[]]
  | c :: rest =>
    match splitOnChar sep rest with
    | [] => if c = sep then [[], []] else [[c]]
    | w :: ws => if c = sep then [] :: w :: ws else (c :: w) :: ws

/-- `Array.prototype.join(sep)` over lines. -/
def joinLines (l : List Str) : Str := List.intercalate [('\n')] l

/-- `String.prototype.indexOf(needle)`: position of the first occurrence. -/
def indexOfSub (needle : Str) : Str → Option Nat
  | [] => if needle = [] then some 0 else none
  | c :: rest =>
    if needle.isPrefixOf (c :: rest) then some 0
    else (indexOfSub needle rest).map (· + 1)

/-- `String.prototype.lastIndexOf(c)` for a character. -/
def lastIndexOfChar (c : Char) (s : Str) : Option Nat :=
  match (s.reverse.findIdx? (· = c)) with
  | none => none
  | some k => some (s.length - 1 - k)

/-- `Array.prototype.lastIndexOf(x)` over a list of lines, as the `> 0`
comparison of the source reads it: `-1` when absent. -/
def lastIndexOfLine (x : Str) (l : List Str) : Int :=
  match (l.reverse.findIdx? (· = x)) with
  | none => -1
  | some k => (l.length : Int) - 1 - (k : Int)

def MAX_CHUNK_SIZE : Nat := 3000

def MIN_CHUNK_SIZE : Nat := 100

structure ChunkingOptions where
  maxChunkSize : Option Nat := none
  minChunkSize : Option Nat := none
deriving DecidableEq, Repr

/-- `options.x || DEFAULT`: JavaScript `||` also replaces an explicit 0. -/
def orDefault (o : Option Nat) (d : Nat) : Nat :=
  match o with
  | some n => if n = 0 then d else n
  | none => d

def maxOf (o : ChunkingOptions) : Nat := orDefault o.maxChunkSize MAX_CHUNK_SIZE

def minOf (o : ChunkingOptions) : Nat := orDefault o.minChunkSize MIN_CHUNK_SIZE

/-- `line.match(/^(#+)\s+(.+)$/)` on a single line (the same shape serves
the `m`-flagged heading regex of `extractTitle` line by line): at least one
hash, at least one whitespace character, and a non-empty remainder for
`(.+)$`, whose characters must not be line terminators; when everything
after the whitespace run is empty, JavaScript backtracking lets `(.+)`
take the last whitespace character (if it is not `\r`). Returns the
captured second group. -/
def matchHeadingLine (line : Str) : Option Str :=
  let hashes := (line.takeWhile (fun c => c = '#')).length
  let t := line.drop hashes
  let m := (t.takeWhile isWsJS).length
  let rest := t.drop m
  if hashes = 0 || m = 0 then none
  else if rest ≠ [] then
    if rest.all (fun c => c ≠ '\r' && c ≠ '\n') then some rest else none
  else if 2 ≤ m && (t.take m).drop (m - 1) ≠ [('\r')] then
    some ((t.take m).drop (m - 1))
  else none

/-! ### `chunkMarkdown` -/

structure MdState where
  chunks : List Str
  currentChunk : List Str
deriving Repr

/-- The body of the line loop of `chunkMarkdown`. -/
def chunkMarkdownStep (opts : ChunkingOptions) (st : MdState) (line : Str) :
    MdState :=
  match matchHeadingLine line with
  | some _ =>
    let st1 :=
      if st.currentChunk.length > 0 then
        let chunkText := joinLines st.currentChunk
        { chunks :=
            if minOf opts ≤ chunkText.length then st.chunks ++ [chunkText]
            else st.chunks,
          currentChunk := [] }
      else st
    { st1 with currentChunk := st1.currentChunk ++ [line] }
  | none =>
    let cur := st.currentChunk ++ [line]
    let chunkText := joinLines cur
    if maxOf opts < chunkText.length then
      let lastPara := lastIndexOfLine [] cur
      if 0 < lastPara then
        { chunks := st.chunks ++ [joinLines (cur.take lastPara.toNat)],
          currentChunk := cur.drop lastPara.toNat }
      else
        { chunks := st.chunks ++ [chunkText.take (maxOf opts)],
          currentChunk := [chunkText.drop (maxOf opts)] }
    else
      { st with currentChunk := cur }

/-- `chunkMarkdown`: accumulate lines, close a chunk at each heading when it
reaches `minChunkSize`, force-split an oversized open chunk at the last
blank line if any, else hard-cut at `maxChunkSize`; the remainder is kept
only when it reaches `minChunkSize`; an empty outcome falls back to the
whole content. -/
def chunkMarkdown (content : Str) (opts : ChunkingOptions) : List Str :=
  let lines := splitOnChar ('\n') content
  let fin := lines.foldl (chunkMarkdownStep opts) ⟨[], []⟩
  let chunks :=
    if fin.currentChunk.length > 0 then
      let chunkText := joinLines fin.currentChunk
      if minOf opts ≤ chunkText.length then fin.chunks ++ [chunkText]
      else fin.chunks
    else fin.chunks
  if chunks.length > 0 then chunks else [content]

/-! ### `chunkCode` -/

/-- `^(export\s+)?(async\s+)?function\s+\w+` -/
def patFunctionStart : PatAt :=
  patSeq (patOpt (patSeq (patLit ("export").data) (patClsAtLeast isWsJS 1)))
    (patSeq (patOpt (patSeq (patLit ("async").data) (patClsAtLeast isWsJS 1)))
      (patSeq (patLit ("function").data)
        (patSeq (patClsAtLeast isWsJS 1) (patClsAtLeast isWordChar 1))))

/-- `^(export\s+)?class\s+\w+` -/
def patClassStart : PatAt :=
  patSeq (patOpt (patSeq (patLit ("export").data) (patClsAtLeast isWsJS 1)))
    (patSeq (patLit ("class").data)
      (patSeq (patClsAtLeast isWsJS 1) (patClsAtLeast isWordChar 1)))

/-- `^(export\s+)?const\s+\w+\s*=\s*(async\s+)?\(` -/
def patConstArrow : PatAt :=
  patSeq (patOpt (patSeq (patLit ("export").data) (patClsAtLeast isWsJS 1)))
    (patSeq (patLit ("const").data)
      (patSeq (patClsAtLeast isWsJS 1)
        (patSeq (patClsAtLeast isWordChar 1)
          (patSeq (patClsAtLeast isWsJS 0)
            (patSeq (patLit ("=").data)
              (patSeq (patClsAtLeast isWsJS 0)
                (patSeq
                  (patOpt (patSeq (patLit ("async").data) (patClsAtLeast isWsJS 1)))
                  (patLit (("(").data)))))))))

/-- `regex.test` anchored at the start of the trimmed line. -/
def patTest (p : PatAt) (s : Str) : Bool := (p s).isSome

structure CodeScanState where
  boundaries : List Nat
  braceDepth : Int
  inFunction : Bool
deriving Repr

/-- The body of the boundary-detection loop of `chunkCode`. -/
def chunkCodeStep (st : CodeScanState) (il : Nat × Str) : CodeScanState :=
  let line := il.2
  let i := il.1
  let trimmed := jsTrim line
  let depth := st.braceDepth + ((line.filter (fun c => c = '{')).length : Int)
      - ((line.filter (fun c => c = '}')).length : Int)
  let st1 :=
    if patTest patFunctionStart trimmed || patTest patClassStart trimmed ||
        patTest patConstArrow trimmed then
      { st with
        braceDepth := depth,
        boundaries :=
          if st.boundaries.length > 0 && st.boundaries.getLast? ≠ some i then
            st.boundaries ++ [i]
          else st.boundaries,
        inFunction := true }
    else { st with braceDepth := depth }
  if st1.inFunction && st1.braceDepth = 0 && trimmed.contains ('}') then
    { st1 with boundaries := st1.boundaries ++ [i + 1], inFunction := false }
  else st1

/-- The pieces `chunkText.match(new RegExp(".{1,max}", "g"))` produces: the
dot does not match newlines, so every maximal newline-free run is cut into
windows of at most `max` characters and the newlines themselves disappear;
a run of newlines only yields nothing. -/
def windowsOfAux (max : Nat) : Nat → Str → List Str
  | 0, _ => []
  | _, [] => []
  | fuel + 1, s => s.take max :: windowsOfAux max fuel (s.drop max)

def windowsOf (max : Nat) (s : Str) : List Str := windowsOfAux max s.length s

def dotWindows (max : Nat) (s : Str) : List Str :=
  ((splitOnChar ('\n') s).filter (fun l => l ≠ [])).flatMap (windowsOf max)

/-- `chunkCode`: line-and-brace boundary detection, then chunks from
consecutive boundary pairs; oversized chunks become fixed windows, chunks
under `minChunkSize` are dropped; an empty outcome falls back to the whole
content. -/
def chunkCode (content : Str) (opts : ChunkingOptions) : List Str :=
  let lines := splitOnChar ('\n') content
  let scan := lines.enum.foldl chunkCodeStep ⟨[0], 0, false⟩
  let boundaries := scan.boundaries ++ [lines.length]
  let chunks := (boundaries.zip boundaries.tail).foldl (fun acc se =>
    let chunkLines := (lines.drop se.1).take (se.2 - se.1)
    let chunkText := joinLines chunkLines
    if maxOf opts < chunkText.length then
      acc ++ dotWindows (maxOf opts) chunkText
    else if minOf opts ≤ chunkText.length then
      acc ++ [chunkText]
    else acc) []
  if chunks.length > 0 then chunks else [content]

/-! ### `extractTitle`, `getLanguageFromPath`, `chunkFile` -/

/-- Skip an optional keyword-plus-whitespace prefix, as the optional groups
of the title regexes consume it. -/
def skipOptKeyword (w : Str) (s : Str) : Str :=
  match patSeq (patLit w) (patClsAtLeast isWsJS 1) s with
  | some n => s.drop n
  | none => s

/-- The captured `(\w+)` of `/(?:export\s+)?(?:async\s+)?function\s+(\w+)/`
at its leftmost match, if any. -/
def findFunctionName (content : Str) : Option Str :=
  match findMatch patFunctionStart content with
  | none => none
  | some r =>
    let s1 := skipOptKeyword ("export").data (content.drop r.1)
    let s2 := skipOptKeyword ("async").data s1
    let s3 := (s2.drop (("function").data).length).dropWhile isWsJS
    some (s3.takeWhile isWordChar)

/-- The captured `(\w+)` of `/(?:export\s+)?class\s+(\w+)/` at its leftmost
match, if any. -/
def findClassName (content : Str) : Option Str :=
  match findMatch patClassStart content with
  | none => none
  | some r =>
    let s1 := skipOptKeyword ("export").data (content.drop r.1)
    let s2 := (s1.drop (("class").data).length).dropWhile isWsJS
    some (s2.takeWhile isWordChar)

def codeLangs : List Str :=
  [("typescript").data, ("javascript").data, ("ts").data, ("js").data,
    ("tsx").data, ("jsx").data]

/-- The first line of the `m`-flagged heading regex match over the whole
content: scan the lines in order. -/
def firstHeadingText : List Str → Option Str
  | [] => none
  | l :: rest =>
    match matchHeadingLine l with
    | some g => some g
    | none => firstHeadingText rest

/-- `extractTitle`: markdown heading, else first function or class name,
else the first non-blank line cut to 80 characters, else `Untitled`. -/
def extractTitle (content : Str) (lang : Str) : Str :=
  let fallback :=
    match (splitOnChar ('\n') content).find? (fun l => jsTrim l ≠ []) with
    | some l => (jsTrim l).take 80
    | none => ("Untitled").data
  if lang = ("markdown").data || lang = ("md").data then
    match firstHeadingText (splitOnChar ('\n') content) with
    | some g => jsTrim g
    | none => fallback
  else if codeLangs.contains lang then
    match findFunctionName content with
    | some n => n
    | none =>
      match findClassName content with
      | some n => n
      | none => fallback
  else fallback

def langMap : List (Str × Str) :=
  [ ((".md").data, ("markdown").data),
    ((".txt").data, ("text").data),
    ((".ts").data, ("typescript").data),
    ((".tsx").data, ("typescript").data),
    ((".js").data, ("javascript").data),
    ((".jsx").data, ("javascript").data),
    ((".json").data, ("json").data),
    ((".yml").data, ("yaml").data),
    ((".yaml").data, ("yaml").data),
    ((".sql").data, ("sql").data) ]

/-- `getLanguageFromPath`: the extension from the last dot on (the whole
path when there is no dot, since `substring(-1)` clamps to 0). -/
def getLanguageFromPath (path : Str) : Str :=
  let ext :=
    match lastIndexOfChar ('.') path with
    | none => path
    | some k => path.drop k
  match langMap.find? (fun e => e.1 = ext) with
  | some e => e.2
  | none => ("text").data

structure DocLocation where
  startLine : Nat
  endLine : Nat
deriving DecidableEq, Repr

structure PullRequestInfo where
  number : Nat
  title : Str
  changedFilesCount : Nat
  state : Str
  createdAt : Str
  updatedAt : Str
  url : Str
deriving DecidableEq, Repr

structure KBDocument where
  id : Str
  repo : Str
  path : Str
  lang : Str
  loc : DocLocation
  title : Str
  contentExcerpt : Str
  tags : List Str
  hash : Str
  pullRequest : Option PullRequestInfo := none
deriving DecidableEq, Repr

/-- The document id `` `${repo}:${relativePath}:${i}` ``. -/
def mkDocId (repo path : Str) (i : Nat) : Str :=
  repo ++ [(':')] ++ path ++ [(':')] ++ (Nat.repr i).data

structure DocBuildState where
  docs : List KBDocument
  lineOffset : Nat
deriving Repr

/-- The body of the chunk-to-document loop of `chunkFile`; `hashFn` stands
for the external `createHash('sha256')` digest. -/
def chunkToDocStep (hashFn : Str → Str) (content repo path lang : Str)
    (opts : ChunkingOptions) (st : DocBuildState) (ic : Nat × Str) :
    DocBuildState :=
  let chunkContent := ic.2
  if chunkContent = [] || jsTrim chunkContent = [] then st
  else
    let lines :=
      (splitOnChar ('\n')
        (content.take ((indexOfSub chunkContent content).getD 0))).length
    let startLine := st.lineOffset + lines
    let chunkLines := (splitOnChar ('\n') chunkContent).length
    let endLine := startLine + chunkLines - 1
    let excerpt := jsTrim (chunkContent.take (maxOf opts))
    if excerpt = [] then st
    else
      { docs := st.docs ++
          [{ id := mkDocId repo path ic.1,
             repo := repo,
             path := path,
             lang := lang,
             loc := { startLine := startLine, endLine := endLine },
             title := extractTitle chunkContent lang,
             contentExcerpt := excerpt,
             tags := [],
             hash := hashFn chunkContent }],
        lineOffset := endLine }

/-- `chunkFile`, with the file content passed in place of the file read and
`hashFn` in place of the crypto digest: pick the strategy by language, then
convert the chunks to documents, skipping empty ones. -/
def chunkFile (hashFn : Str → Str) (content repo path : Str)
    (opts : ChunkingOptions) : List KBDocument :=
  let lang := getLanguageFromPath path
  let chunks :=
    if lang = ("markdown").data || lang = ("md").data then
      chunkMarkdown content opts
    else if codeLangs.contains lang then
      chunkCode content opts
    else
      windowsOf (maxOf opts) content
  (chunks.enum.foldl (chunkToDocStep hashFn content repo path lang opts)
    ⟨[], 0⟩).docs

/-- The invariant carried through the chunk-to-document fold: ordered,
non-overlapping line ranges bounded by the running `lineOffset`, and ids
formed from indices below `k`. -/
def docInv (repo path : Str) (k : Nat) (st : DocBuildState) : Prop :=
  (∀ d ∈ st.docs, d.loc.startLine ≤ d.loc.endLine) ∧
  List.Chain' (fun a b => a.loc.endLine < b.loc.startLine) st.docs ∧
  (∀ d ∈ st.docs, d.loc.endLine ≤ st.lineOffset) ∧
  (∀ d ∈ st.docs, ∃ j, j < k ∧ d.id = mkDocId repo path j) ∧
  List.Pairwise (fun a b => a.id ≠ b.id) st.docs

def mdProbe : Str := ("short\n\naaaaaaaaaaaaaaaaaaaaaaaaa").data

def probeOpts : ChunkingOptions := { maxChunkSize := some 20, minChunkSize := some 10 }

def probeHash : Str → Str := fun _ => ("h").data

/-! ## `kb-schema.ts` (`validateKB`, `ensureSizeConstraint`, `writeKB`) -/

structure RepoPRStats where
  repo : Str
  totalPRs : Nat
  openPRs : Nat
  closedPRs : Nat
  mergedPRs : Nat
deriving DecidableEq, Repr

structure KBMeta where
  generatedAt : Str
  sourceScope : Str
  repoCount : Int
  docCount : Int
  version : Str
  prStats : Option (List RepoPRStats) := none
deriving DecidableEq, Repr

structure KBIndex where
  lunrIndex : Str
  embeddingsLite : Option (List (Str × List Rat)) := none
deriving DecidableEq, Repr

structure KnowledgeBase where
  meta : KBMeta
  docs : List KBDocument
  index : KBIndex
deriving DecidableEq, Repr

structure ValidationResult where
  valid : Bool
  errors : List Str
deriving DecidableEq, Repr

/-- The meta checks of `validateKB`, in source order; JavaScript truthiness
reads an empty string as missing. -/
def metaErrors (kb : KnowledgeBase) : List Str :=
  (if kb.meta.generatedAt = [] then [("Missing meta.generatedAt").data] else []) ++
  (if kb.meta.sourceScope = ("public-only").data ||
      kb.meta.sourceScope = ("private-local").data then []
    else [("Invalid meta.sourceScope").data]) ++
  (if kb.meta.repoCount < 0 then [("Invalid meta.repoCount").data] else []) ++
  (if kb.meta.docCount = (kb.docs.length : Int) then []
    else [("meta.docCount (").data ++ (toString kb.meta.docCount).data ++
      (") doesn't match docs.length (").data ++ (Nat.repr kb.docs.length).data ++
      (")").data])

/-- The per-document checks of `validateKB`; the `loc` shape check of the
source can only fail on untyped JSON and is vacuous over the typed model. -/
def docFieldErrors (idx : Nat) (doc : KBDocument) : List Str :=
  let pre := ("Doc ").data ++ (Nat.repr idx).data ++ (": ").data
  (if doc.id = [] then [pre ++ ("missing id").data] else []) ++
  (if doc.repo = [] then [pre ++ ("missing repo").data] else []) ++
  (if doc.path = [] then [pre ++ ("missing path").data] else []) ++
  (if doc.lang = [] then [pre ++ ("missing lang").data] else []) ++
  (if doc.contentExcerpt = [] then [pre ++ ("missing contentExcerpt").data] else []) ++
  (if doc.hash = [] then [pre ++ ("missing hash").data] else [])

/-- `validateKB`: meta checks, per-document field checks, and presence of
the serialized text index. No check relates the vector map
(`embeddingsLite`) to the document ids. -/
def validateKB (kb : KnowledgeBase) : ValidationResult :=
  let errors := metaErrors kb ++
    (kb.docs.enum.flatMap (fun p => docFieldErrors p.1 p.2)) ++
    (if kb.index.lunrIndex = [] then [("Missing index.lunrIndex").data] else [])
  { valid := errors = [], errors := errors }

/-! A model of `JSON.stringify` over the typed `KnowledgeBase` shape, for
the byte-size check: keys in declaration order, strings JSON-escaped.
Embedding vectors print as exact rationals rather than JavaScript float
literals; the 20 MiB ceiling comparison is insensitive to that formatting
difference for the inputs settled here. -/

def hexDigit (n : Nat) : Char := Nat.digitChar n

def jsonEscapeChar (c : Char) : Str :=
  if c = '"' then [('\\'), ('"')]
  else if c = '\\' then [('\\'), ('\\')]
  else if c = '\n' then [('\\'), ('n')]
  else if c = '\r' then [('\\'), ('r')]
  else if c = '\t' then [('\\'), ('t')]
  else if c.toNat < 32 then
    ("\\u00").data ++ [hexDigit (c.toNat / 16), hexDigit (c.toNat % 16)]
  else [c]

def jsonStr (s : Str) : Str := [('"')] ++ s.flatMap jsonEscapeChar ++ [('"')]

def jsonInt (i : Int) : Str := (toString i).data

def jsonNat (n : Nat) : Str := (Nat.repr n).data

def jsonRat (q : Rat) : Str :=
  if q.den = 1 then (toString q.num).data
  else (toString q.num).data ++ ("/").data ++ (Nat.repr q.den).data

def jsonArr (elems : List Str) : Str :=
  [('[')] ++ List.intercalate [(',')] elems ++ [(']')]

def jsonObj (fields : List (Str × Str)) : Str :=
  [('{')] ++
    List.intercalate [(',')]
      (fields.map (fun f => jsonStr f.1 ++ [(':')] ++ f.2)) ++
  [('}')]

def jsonOfPR (pr : PullRequestInfo) : Str :=
  jsonObj
    [ (("number").data, jsonNat pr.number),
      (("title").data, jsonStr pr.title),
      (("changedFilesCount").data, jsonNat pr.changedFilesCount),
      (("state").data, jsonStr pr.state),
      (("createdAt").data, jsonStr pr.createdAt),
      (("updatedAt").data, jsonStr pr.updatedAt),
      (("url").data, jsonStr pr.url) ]

def jsonOfDoc (d : KBDocument) : Str :=
  jsonObj
    ([ (("id").data, jsonStr d.id),
       (("repo").data, jsonStr d.repo),
       (("path").data, jsonStr d.path),
       (("lang").data, jsonStr d.lang),
       (("loc").data, jsonObj
         [ (("startLine").data, jsonNat d.loc.startLine),
           (("endLine").data, jsonNat d.loc.endLine) ]),
       (("title").data, jsonStr d.title),
       (("contentExcerpt").data, jsonStr d.contentExcerpt),
       (("tags").data, jsonArr (d.tags.map jsonStr)),
       (("hash").data, jsonStr d.hash) ] ++
     (match d.pullRequest with
      | none => []
      | some pr => [(("pullRequest").data, jsonOfPR pr)]))

def jsonOfStats (st : RepoPRStats) : Str :=
  jsonObj
    [ (("repo").data, jsonStr st.repo),
      (("totalPRs").data, jsonNat st.totalPRs),
      (("openPRs").data, jsonNat st.openPRs),
      (("closedPRs").data, jsonNat st.closedPRs),
      (("mergedPRs").data, jsonNat st.mergedPRs) ]

def jsonOfMeta (m : KBMeta) : Str :=
  jsonObj
    ([ (("generatedAt").data, jsonStr m.generatedAt),
       (("sourceScope").data, jsonStr m.sourceScope),
       (("repoCount").data, jsonInt m.repoCount),
       (("docCount").data, jsonInt m.docCount),
       (("version").data, jsonStr m.version) ] ++
     (match m.prStats with
      | none => []
      | some l => [(("prStats").data, jsonArr (l.map jsonOfStats))]))

def jsonOfIndex (ix : KBIndex) : Str :=
  jsonObj
    ([ (("lunrIndex").data, jsonStr ix.lunrIndex) ] ++
     (match ix.embeddingsLite with
      | none => []
      | some m => [(("embeddingsLite").data,
          jsonObj (m.map (fun e => (e.1, jsonArr (e.2.map jsonRat)))))]))

def stringifyKB (kb : KnowledgeBase) : Str :=
  jsonObj
    [ (("meta").data, jsonOfMeta kb.meta),
      (("docs").data, jsonArr (kb.docs.map jsonOfDoc)),
      (("index").data, jsonOfIndex kb.index) ]

/-- `Buffer.byteLength(s, "utf8")`. -/
def utf8Len (s : Str) : Nat :=
  s.foldl (fun n c =>
    n + (if c.toNat < 128 then 1 else if c.toNat < 2048 then 2
      else if c.toNat < 65536 then 3 else 4)) 0

def MAX_KB_SIZE : Nat := 20 * 1024 * 1024

/-- `ensureSizeConstraint`: false when the serialized size exceeds 20 MiB. -/
def ensureSizeConstraint (kb : KnowledgeBase) : Bool :=
  utf8Len (stringifyKB kb) ≤ MAX_KB_SIZE

/-- One `writeFileSync(path, JSON.stringify(kb, ...))` call, recorded by its
target path and whether the pretty (2-space indent) form was written. -/
structure FileWrite where
  fileName : Str
  pretty : Bool
deriving DecidableEq, Repr

/-- `writeKB`: validation, then the size check, then both writes; a thrown
error means no file was written. -/
def writeKB (kb : KnowledgeBase) (outputDir : Str) : Except Str (List FileWrite) :=
  let validation := validateKB kb
  if !validation.valid then
    .error (("KB validation failed:\n").data ++ joinLines validation.errors)
  else if !ensureSizeConstraint kb then
    .error (("KB size exceeds limit").data)
  else
    .ok [ { fileName := outputDir ++ ("/kb.json").data, pretty := true },
          { fileName := outputDir ++ ("/kb.min.json").data, pretty := false } ]

/-- A knowledge base whose vector map holds a key (`ghost`) that references
no document: `validateKB` accepts it. -/
def kbOrphan : KnowledgeBase :=
  { meta :=
      { generatedAt := ("2026-01-01").data,
        sourceScope := ("public-only").data,
        repoCount := 1,
        docCount := 1,
        version := ("abc").data },
    docs :=
      [ { id := ("r:f.md:0").data,
          repo := ("r").data,
          path := ("f.md").data,
          lang := ("markdown").data,
          loc := { startLine := 1, endLine := 2 },
          title := ("t").data,
          contentExcerpt := ("hello world").data,
          tags := [],
          hash := ("h").data } ],
    index :=
      { lunrIndex := ("serialized-lunr").data,
        embeddingsLite := some [(("ghost").data, [1, 0])] } }

/-! ## `kb-loader.ts` and the module state of the search engine -/

/-- The two fetch-and-parse attempts available to `loadKB`, as results: the
compact `/kb.min.json` and the readable `/kb.json`; `none` is a failed fetch
or parse. -/
structure FetchEnv where
  fetchMin : Option KnowledgeBase
  fetchFull : Option KnowledgeBase

/-- The module-level `cachedKB` of `kb-loader.ts`. -/
structure LoaderState where
  cachedKB : Option KnowledgeBase
deriving DecidableEq, Repr

structure LoadOutcome where
  result : Except Str KnowledgeBase
  state : LoaderState
  fetches : Nat

/-- `loadKB`: return the cache when set; otherwise fetch the compact
encoding, falling back to the readable one, caching whatever parsed. A
fetch that fails, fails to parse, or parses to a structurally invalid value
is one `none` here: the source then throws after having already assigned
the cache, a behaviour outside this claim's happy path. -/
def loadKB (env : FetchEnv) (s : LoaderState) : LoadOutcome :=
  match s.cachedKB with
  | some kb => { result := .ok kb, state := s, fetches := 0 }
  | none =>
    match env.fetchMin with
    | some kb => { result := .ok kb, state := { cachedKB := some kb }, fetches := 1 }
    | none =>
      match env.fetchFull with
      | some kb =>
        { result := .ok kb, state := { cachedKB := some kb }, fetches := 2 }
      | none =>
        { result := .error (("Failed to load knowledge base").data),
          state := s, fetches := 2 }

/-- `clearKBCache`: the explicit reset. -/
def clearKBCache (_s : LoaderState) : LoaderState := { cachedKB := none }

/-- The module-level `searchIndex`/`kbData` of the search engine; the
reconstructed lunr index is recorded by its serialized blob, since
`lunr.Index.load` is external. -/
structure EngineState where
  loader : LoaderState
  searchIndex : Option Str
  kbData : Option KnowledgeBase
deriving Repr

def freshEngineState : EngineState :=
  { loader := { cachedKB := none }, searchIndex := none, kbData := none }

structure InitOutcome where
  result : Except Str Unit
  state : EngineState
  fetches : Nat
  parses : Nat

/-- `initializeIndex`: a no-op when both module caches are set; otherwise
`loadKB`, then one `JSON.parse`/`lunr.Index.load` of the serialized index. -/
def initializeIndex (env : FetchEnv) (s : EngineState) : InitOutcome :=
  if s.searchIndex.isSome && s.kbData.isSome then
    { result := .ok (), state := s, fetches := 0, parses := 0 }
  else
    let o := loadKB env s.loader
    match o.result with
    | .error e =>
      { result := .error e, state := { s with loader := o.state },
        fetches := o.fetches, parses := 0 }
    | .ok kb =>
      { result := .ok (),
        state := { loader := o.state, searchIndex := some kb.index.lunrIndex,
                   kbData := some kb },
        fetches := o.fetches, parses := 1 }

/-- `n` successive `initializeIndex` calls: final state and the total fetch
and parse counts. -/
def runInit (env : FetchEnv) : Nat → EngineState → EngineState × Nat × Nat
  | 0, s => (s, 0, 0)
  | n + 1, s =>
    let o := initializeIndex env s
    let r := runInit env n o.state
    (r.1, o.fetches + r.2.1, o.parses + r.2.2)

/-! ## The search engine of `search.ts` -/

/-- The match metadata a lunr result carries; the engine passes it through
untouched, so it is recorded as an uninterpreted payload. -/
structure LunrMatchData where
  metadata : Str
deriving DecidableEq, Repr

/-- One result of `searchIndex.search(query)`: the external lunr index is a
parameter of `search`, as an injected collaborator. -/
structure LunrResult where
  ref : Str
  score : Rat
  matchData : Option LunrMatchData := none
deriving DecidableEq, Repr

structure SearchResult where
  doc : KBDocument
  score : Rat
  matchData : Option LunrMatchData := none
deriving DecidableEq, Repr

inductive SearchMode where
  | keyword
  | semantic
  | hybrid
deriving DecidableEq, Repr

structure SearchFilters where
  repo : Option Str := none
  language : Option Str := none
  tag : Option Str := none
  prStatus : Option Str := none
  fileType : Option Str := none
deriving DecidableEq, Repr

/-- `doc.path.split(".").pop()?.toLowerCase()`; the split is never empty,
so `pop` always yields the last segment. -/
def fileExtOf (path : Str) : Str :=
  lowerStr (((splitOnChar ('.') path).getLast?).getD [])

/-- The filter block shared verbatim by the keyword mapping of `search` and
by `semanticSearch`: each supplied predicate excludes a candidate when it
fails; an empty-string filter value is falsy in JavaScript and filters
nothing, and `prStatus` has the wildcard `all`. -/
def passesFilters (filters : Option SearchFilters) (doc : KBDocument) : Bool :=
  match filters with
  | none => true
  | some f =>
    (match f.repo with
     | some r => r = [] || doc.repo = r
     | none => true) &&
    (match f.language with
     | some l => l = [] || doc.lang = l
     | none => true) &&
    (match f.tag with
     | some t => t = [] || doc.tags.contains t
     | none => true) &&
    (match f.prStatus with
     | some ps => ps = [] || ps = ("all").data ||
        (match doc.pullRequest with
         | some pr => pr.state = ps
         | none => false)
     | none => true) &&
    (match f.fileType with
     | some ft => ft = [] || fileExtOf doc.path = lowerStr ft
     | none => true)

def minWordsMsg : Str := ("Search query must contain at least 2 words").data

def unavailableMsg : Str :=
  ("Semantic search requires embeddings. Please rebuild with generateEmbeddings: true").data

/-- The body of the keyword mapping of `search`: look the lunr ref up among
the documents, drop the result when no document matches or a filter fails. -/
def mapKeywordResult (kb : KnowledgeBase) (filters : Option SearchFilters)
    (r : LunrResult) : Option SearchResult :=
  match kb.docs.find? (fun d => d.id = r.ref) with
  | none => none
  | some doc =>
    if passesFilters filters doc then
      some { doc := doc, score := r.score, matchData := r.matchData }
    else none

/-- `Map.prototype.get` over the insertion-ordered association list that
models the JavaScript `Map`. -/
def mapGet (m : List (Str × SearchResult)) (key : Str) : Option SearchResult :=
  (m.find? (fun e => e.1 = key)).map (fun e => e.2)

/-- `Map.prototype.set`: update in place (the position is kept), else
append. -/
def mapSet (m : List (Str × SearchResult)) (key : Str) (v : SearchResult) :
    List (Str × SearchResult) :=
  if m.any (fun e => e.1 = key) then
    m.map (fun e => if e.1 = key then (key, v) else e)
  else m ++ [(key, v)]

/-- The keyword loop of the hybrid combination: insert with weight `0.6`,
or recompute the running average `(existing + incoming·0.6) / 1.6`. -/
def combineKeywordStep (m : List (Str × SearchResult)) (result : SearchResult) :
    List (Str × SearchResult) :=
  match mapGet m result.doc.id with
  | some existing =>
    mapSet m result.doc.id
      { existing with score := (existing.score + result.score * 0.6) / 1.6 }
  | none =>
    mapSet m result.doc.id { result with score := result.score * 0.6 }

/-- The semantic loop of the hybrid combination: insert with weight `0.4`,
or recompute the running average `(existing + incoming·0.4) / 1.4`. -/
def combineSemanticStep (m : List (Str × SearchResult)) (result : SearchResult) :
    List (Str × SearchResult) :=
  match mapGet m result.doc.id with
  | some existing =>
    mapSet m result.doc.id
      { existing with score := (existing.score + result.score * 0.4) / 1.4 }
  | none =>
    mapSet m result.doc.id { result with score := result.score * 0.4 }

/-- The hybrid accumulator map: all keyword results first, then all
semantic results. -/
def combineScores (kws sems : List SearchResult) : List (Str × SearchResult) :=
  sems.foldl combineSemanticStep (kws.foldl combineKeywordStep [])

/-- Stable insertion for the descending sort `(a, b) => b.score - a.score`:
an element passes over strictly greater scores only, so equal scores keep
their original order, as the (stable) JavaScript sort does. -/
def insertByScoreDesc (x : SearchResult) :
    List SearchResult → List SearchResult
  | [] => [x]
  | y :: rest =>
    if x.score < y.score then y :: insertByScoreDesc x rest
    else x :: y :: rest

def sortByScoreDesc (l : List SearchResult) : List SearchResult :=
  l.foldr insertByScoreDesc []

/-- `search` of the search-engine module, after initialization: the lunr
query and the semantic sub-search are injected (`lunr`, `sem`), the rest is
the module's own logic: trim, the 2-word validation, the keyword mapping
with filters and early slicing, the per-mode semantic handling (strict in
semantic mode, swallowed in hybrid), and the per-mode combination. -/
def search (kb : KnowledgeBase) (lunr : Str → List LunrResult)
    (sem : Str → Option SearchFilters → Nat → Except Str (List SearchResult))
    (query : Str) (filters : Option SearchFilters) (limit : Nat)
    (mode : SearchMode) : Except Str (List SearchResult) :=
  let trimmedQuery := jsTrim query
  if trimmedQuery = [] then .ok []
  else
    let words := (splitWs trimmedQuery).filter (fun w => w.length > 0)
    if words.length < 2 then .error minWordsMsg
    else
      let keywordResults := lunr trimmedQuery
      let keywordSearchResults :=
        ((keywordResults.take (limit * 3)).filterMap
          (mapKeywordResult kb filters)).take (limit * 2)
      let semOutcome : Except Str (List SearchResult) :=
        if mode = .semantic || mode = .hybrid then
          if kb.index.embeddingsLite.getD [] = [] then
            if mode = .semantic then .error unavailableMsg else .ok []
          else
            match sem trimmedQuery filters limit with
            | .ok l => .ok l
            | .error e => if mode = .semantic then .error e else .ok []
        else .ok []
      match semOutcome with
      | .error e => .error e
      | .ok semanticResults =>
        match mode with
        | .keyword => .ok (keywordSearchResults.take limit)
        | .semantic => .ok (semanticResults.take limit)
        | .hybrid =>
          .ok ((sortByScoreDesc
            ((combineScores keywordSearchResults semanticResults).map
              (fun e => e.2))).take limit)

/-! ## `semantic-search.ts`

Cosine similarities are irrational in general; a similarity value
`dot / (√normA · √normB)` is represented exactly by the pair
`(dot, normA · normB)`, and the positivity test and the sort comparator
implement the real-number comparisons on that representation. -/

/-- `dot / √sq`, with `sq > 0` (the degenerate cases of the source return
the value 0, represented as `(0, 1)`). -/
structure SimValue where
  num : Rat
  sq : Rat
deriving DecidableEq, Repr

/-- `cosineSimilarity`: 0 on a length mismatch; 0 when the denominator
`√normA · √normB` is 0, which over the reals happens exactly when
`normA · normB = 0`; otherwise `dot / (√normA · √normB)`, represented as
`(dot, normA · normB)`. -/
def cosineSimilarity (a b : List Rat) : SimValue :=
  if a.length ≠ b.length then { num := 0, sq := 1 }
  else
    let dotProduct := (a.zip b).foldl (fun acc p => acc + p.1 * p.2) 0
    let normA := a.foldl (fun acc x => acc + x * x) 0
    let normB := b.foldl (fun acc x => acc + x * x) 0
    if normA * normB = 0 then { num := 0, sq := 1 }
    else { num := dotProduct, sq := normA * normB }

/-- `similarity > 0`: with `sq > 0`, `num / √sq > 0` iff `num > 0`. -/
def simIsPos (v : SimValue) : Bool := 0 < v.num

/-- `value a ≥ value b` on the exact representation: sign comparison, then
cross-multiplied squares (`a/√x ≥ b/√y ↔ a²y ≥ b²x` for positives, flipped
for negatives). -/
def simGe (a b : SimValue) : Bool :=
  if 0 ≤ a.num then
    if b.num ≤ 0 then true
    else b.num * b.num * a.sq ≤ a.num * a.num * b.sq
  else
    if 0 ≤ b.num then false
    else a.num * a.num * b.sq ≤ b.num * b.num * a.sq

/-- Stable insertion for `similarities.sort((a, b) => b.score - a.score)`. -/
def insertSimDesc (x : Str × SimValue) :
    List (Str × SimValue) → List (Str × SimValue)
  | [] => [x]
  | y :: rest =>
    if simGe x.2 y.2 then x :: y :: rest
    else y :: insertSimDesc x rest

def sortSimsDesc (l : List (Str × SimValue)) : List (Str × SimValue) :=
  l.foldr insertSimDesc []

/-- `hasEmbeddings` of `semantic-search.ts`. -/
def hasEmbeddings (kb : KnowledgeBase) : Bool :=
  kb.index.embeddingsLite.getD [] ≠ []

def semUnavailableMsg : Str :=
  ("Semantic search requires embeddings. Please rebuild the knowledge base with generateEmbeddings: true in rag.config.json").data

/-- The query-side embedding call: truncate to 512 characters, then the
injected model. -/
def generateQueryEmbedding (embed : Str → List Rat) (query : Str) : List Rat :=
  embed (if query.length > 512 then query.take 512 else query)

/-- The build-side embedding call of `embeddings.ts`: the same 512-character
cap before the same injected model. -/
def buildGenerateEmbedding (embed : Str → List Rat) (text : Str) : List Rat :=
  embed (if text.length > 512 then text.take 512 else text)

structure SemResult where
  doc : KBDocument
  score : SimValue
deriving DecidableEq, Repr

/-- Document lookup plus the filter block for one semantic candidate. -/
def semLookup (kb : KnowledgeBase) (filters : Option SearchFilters)
    (c : Str × SimValue) : Option SemResult :=
  match kb.docs.find? (fun d => d.id = c.1) with
  | none => none
  | some doc =>
    if passesFilters filters doc then some { doc := doc, score := c.2 }
    else none

/-- The result loop of `semanticSearch`: walk the candidates, skip failed
lookups and filtered documents, and stop once `limit` results are
collected. -/
def collectSemResults (kb : KnowledgeBase) (filters : Option SearchFilters)
    (limit : Nat) : List (Str × SimValue) → List SemResult → List SemResult
  | [], acc => acc.reverse
  | c :: rest, acc =>
    match semLookup kb filters c with
    | none => collectSemResults kb filters limit rest acc
    | some r =>
      let acc2 := r :: acc
      if limit ≤ acc2.length then acc2.reverse
      else collectSemResults kb filters limit rest acc2

/-- `semanticSearch`: requires a non-empty vector map; embeds the query via
the injected model, scores every stored vector by cosine similarity, keeps
the positive ones, sorts descending, then walks only the top `2·limit`
candidates applying lookups and filters until `limit` results. -/
def semanticSearch (embed : Str → List Rat) (kb : KnowledgeBase)
    (query : Str) (filters : Option SearchFilters) (limit : Nat) :
    Except Str (List SemResult) :=
  if !hasEmbeddings kb then .error semUnavailableMsg
  else
    let embeddings := kb.index.embeddingsLite.getD []
    let queryEmbedding := generateQueryEmbedding embed query
    let similarities := embeddings.filterMap (fun e =>
      let similarity := cosineSimilarity queryEmbedding e.2
      if simIsPos similarity then some (e.1, similarity) else none)
    .ok (collectSemResults kb filters limit
      ((sortSimsDesc similarities).take (limit * 2)) [])

/-- The semantic pipeline as claim C3 words it (its parenthetical included):
every positive similarity is sorted, the filters are applied to the whole
sorted list, and only then is the list cut to `limit`. Stated for
comparison with `semanticSearch`; it differs by the missing `2·limit`
candidate cut. -/
def specSemanticSearch (embed : Str → List Rat) (kb : KnowledgeBase)
    (query : Str) (filters : Option SearchFilters) (limit : Nat) :
    Except Str (List SemResult) :=
  if !hasEmbeddings kb then .error semUnavailableMsg
  else
    let embeddings := kb.index.embeddingsLite.getD []
    let queryEmbedding := generateQueryEmbedding embed query
    let similarities := embeddings.filterMap (fun e =>
      let similarity := cosineSimilarity queryEmbedding e.2
      if simIsPos similarity then some (e.1, similarity) else none)
    .ok (((sortSimsDesc similarities).filterMap (semLookup kb filters)).take limit)

/-! ### Concrete fixtures for the retrieval claims -/

def docA : KBDocument :=
  { id := ("r:a.ts:0").data, repo := ("r").data, path := ("a.ts").data,
    lang := ("typescript").data, loc := { startLine := 1, endLine := 1 },
    title := ("A").data, contentExcerpt := ("alpha beta").data, tags := [],
    hash := ("h").data }

def docB : KBDocument :=
  { id := ("r:b.ts:0").data, repo := ("r").data, path := ("b.ts").data,
    lang := ("typescript").data, loc := { startLine := 1, endLine := 1 },
    title := ("B").data, contentExcerpt := ("beta gamma").data, tags := [],
    hash := ("h").data }

def docGo : KBDocument :=
  { id := ("r:m.go:0").data, repo := ("r").data, path := ("m.go").data,
    lang := ("go").data, loc := { startLine := 1, endLine := 1 },
    title := ("G").data, contentExcerpt := ("gamma delta").data, tags := [],
    hash := ("h").data }

def kbSem : KnowledgeBase :=
  { meta :=
      { generatedAt := ("2026-01-01").data,
        sourceScope := ("public-only").data,
        repoCount := 1,
        docCount := 3,
        version := ("v").data },
    docs := [docA, docB, docGo],
    index :=
      { lunrIndex := ("L").data,
        embeddingsLite := some
          [ (("r:a.ts:0").data, [1, 0]),
            (("r:b.ts:0").data, [1, 1]),
            (("r:m.go:0").data, [1, 2]) ] } }

def embedConst : Str → List Rat := fun _ => [1, 0]

def goFilter : SearchFilters := { language := some ("go").data }

def noLunr : Str → List LunrResult := fun _ => []

def noSem : Str → Option SearchFilters → Nat → Except Str (List SearchResult) :=
  fun _ _ _ => .ok []

def kbNoVec : KnowledgeBase :=
  { meta :=
      { generatedAt := ("2026-01-01").data,
        sourceScope := ("public-only").data,
        repoCount := 1,
        docCount := 2,
        version := ("v").data },
    docs := [docA, docB],
    index := { lunrIndex := ("L").data } }

def lunrTwo : Str → List LunrResult := fun _ =>
  [ { ref := ("r:a.ts:0").data, score := 2 },
    { ref := ("r:b.ts:0").data, score := 1 } ]

/-! ## Theorems -/

theorem digitVal_digitChar (d : Nat) (h : d < 10) :
    (Nat.digitChar d).toNat - 48 = d := by
  interval_cases d <;> rfl

theorem toDigitsCore_acc (b : Nat) (hb : 2 ≤ b) :
    ∀ (fuel n : Nat) (ds : List Char), n < fuel →
      Nat.toDigitsCore b fuel n ds = Nat.toDigitsCore b fuel n [] ++ ds := by
  intro fuel
  induction fuel with
  | zero => intro n ds h; omega
  | succ f ih =>
    intro n ds _
    simp only [Nat.toDigitsCore]
    by_cases h0 : n / b = 0
    · simp [h0]
    · simp only [h0, if_false]
      have hn1 : 1 ≤ n := by
        by_contra hc
        push_neg at hc
        interval_cases n
        simp at h0
      have hdb : n / b < n := Nat.div_lt_self (by omega) (by omega)
      have hlt : n / b < f := by omega
      rw [ih (n / b) (Nat.digitChar (n % b) :: ds) hlt,
        ih (n / b) [Nat.digitChar (n % b)] hlt]
      simp

theorem digitsVal_toDigits (n : Nat) :
    ∀ (fuel : Nat), n < fuel → digitsVal (Nat.toDigitsCore 10 fuel n []) = n := by
  induction n using Nat.strong_induction_on with
  | _ n ih =>
    intro fuel hfuel
    match fuel with
    | f + 1 =>
      simp only [Nat.toDigitsCore]
      by_cases h0 : n / 10 = 0
      · have : n < 10 := by omega
        simp only [h0, if_true, digitsVal, List.foldl]
        rw [digitVal_digitChar _ (Nat.mod_lt _ (by omega))]
        omega
      · simp only [h0, if_false]
        have hdb : n / 10 < n := Nat.div_lt_self (by omega) (by omega)
        rw [toDigitsCore_acc 10 (by omega) f (n / 10) _ (by omega)]
        have hval : digitsVal (Nat.toDigitsCore 10 f (n / 10) []) = n / 10 :=
          ih (n / 10) hdb f (by omega)
        simp only [digitsVal, List.foldl_append, List.foldl]
        simp only [digitsVal] at hval
        rw [hval, digitVal_digitChar _ (Nat.mod_lt _ (by omega))]
        omega

theorem natReprData_injective : Function.Injective (fun n => (Nat.repr n).data) := by
  intro a b h
  simp only [Nat.repr, Nat.toDigits, List.asString] at h
  have ha := digitsVal_toDigits a (a + 1) (by omega)
  have hb := digitsVal_toDigits b (b + 1) (by omega)
  rw [h] at ha
  omega

theorem mkDocId_inj (repo path : Str) {i j : Nat}
    (h : mkDocId repo path i = mkDocId repo path j) : i = j := by
  unfold mkDocId at h
  exact natReprData_injective (List.append_cancel_left h)

theorem jsTrim_length_le (s : Str) : (jsTrim s).length ≤ s.length := by
  unfold jsTrim
  calc ((s.dropWhile isWsJS).reverse.dropWhile isWsJS).reverse.length
      = ((s.dropWhile isWsJS).reverse.dropWhile isWsJS).length := List.length_reverse _
    _ ≤ (s.dropWhile isWsJS).reverse.length := (List.dropWhile_suffix _).length_le
    _ = (s.dropWhile isWsJS).length := List.length_reverse _
    _ ≤ s.length := (List.dropWhile_suffix _).length_le

theorem splitOnChar_ne_nil (c : Char) (s : Str) : splitOnChar c s ≠ [] := by
  cases s with
  | nil => simp [splitOnChar]
  | cons a rest =>
    simp only [splitOnChar]
    cases h : splitOnChar c rest with
    | nil => split <;> split <;> simp
    | cons w ws => split <;> split <;> simp

theorem splitOnChar_length_pos (c : Char) (s : Str) :
    0 < (splitOnChar c s).length :=
  List.length_pos.mpr (splitOnChar_ne_nil c s)

theorem chunkToDocStep_inv (hashFn : Str → Str) (content repo path lang : Str)
    (opts : ChunkingOptions) (k : Nat) (st : DocBuildState) (c : Str)
    (h : docInv repo path k st) :
    docInv repo path (k + 1)
      (chunkToDocStep hashFn content repo path lang opts st (k, c)) := by
  obtain ⟨h1, h2, h3, h4, h5⟩ := h
  dsimp only [chunkToDocStep]
  split
  · exact ⟨h1, h2, h3, fun d hd => (h4 d hd).imp (fun j hj => ⟨by omega, hj.2⟩), h5⟩
  · split
    · exact ⟨h1, h2, h3, fun d hd => (h4 d hd).imp (fun j hj => ⟨by omega, hj.2⟩), h5⟩
    · set lines := (splitOnChar ('\n')
        (content.take ((indexOfSub c content).getD 0))).length with hlines
      have hlpos : 0 < lines := splitOnChar_length_pos _ _
      set chunkLines := (splitOnChar ('\n') c).length with hcl
      have hclpos : 0 < chunkLines := splitOnChar_length_pos _ _
      refine ⟨?_, ?_, ?_, ?_, ?_⟩
      · intro d hd
        rcases List.mem_append.mp hd with hm | hm
        · exact h1 d hm
        · simp only [List.mem_singleton] at hm
          subst hm
          simp only
          omega
      · refine List.Chain'.append h2 (List.chain'_singleton _) ?_
        intro x hx y hy
        simp only [List.head?_cons, Option.mem_def, Option.some.injEq] at hy
        subst hy
        have hxm : x ∈ st.docs := List.mem_of_mem_getLast? hx
        have := h3 x hxm
        simp only
        omega
      · intro d hd
        rcases List.mem_append.mp hd with hm | hm
        · have := h3 d hm
          simp only
          omega
        · simp only [List.mem_singleton] at hm
          subst hm
          simp only
          omega
      · intro d hd
        rcases List.mem_append.mp hd with hm | hm
        · exact (h4 d hm).imp (fun j hj => ⟨by omega, hj.2⟩)
        · simp only [List.mem_singleton] at hm
          subst hm
          exact ⟨k, by omega, rfl⟩
      · rw [List.pairwise_append]
        refine ⟨h5, List.pairwise_singleton _ _, ?_⟩
        intro a ha b hb
        simp only [List.mem_singleton] at hb
        subst hb
        obtain ⟨j, hjk, hid⟩ := h4 a ha
        simp only
        rw [hid]
        intro hcon
        exact absurd (mkDocId_inj repo path hcon) (by omega)

theorem chunkFold_inv (hashFn : Str → Str) (content repo path lang : Str)
    (opts : ChunkingOptions) :
    ∀ (cs : List Str) (k : Nat) (st : DocBuildState), docInv repo path k st →
      docInv repo path (k + cs.length)
        ((List.enumFrom k cs).foldl
          (chunkToDocStep hashFn content repo path lang opts) st) := by
  intro cs
  induction cs with
  | nil => intro k st h; simpa using h
  | cons c rest ih =>
    intro k st h
    have h1 := chunkToDocStep_inv hashFn content repo path lang opts k st c h
    have h2 := ih (k + 1) _ h1
    simp only [List.enumFrom, List.foldl_cons, List.length_cons]
    have : k + (rest.length + 1) = (k + 1) + rest.length := by omega
    rw [this]
    exact h2

theorem docsFold_props (hashFn : Str → Str) (content repo path lang : Str)
    (opts : ChunkingOptions) (chunks : List Str) :
    List.Pairwise (fun a b => a.id ≠ b.id)
        ((chunks.enum.foldl (chunkToDocStep hashFn content repo path lang opts)
          ⟨[], 0⟩).docs) ∧
      (∀ d ∈ (chunks.enum.foldl (chunkToDocStep hashFn content repo path lang opts)
          ⟨[], 0⟩).docs, d.loc.startLine ≤ d.loc.endLine) ∧
      List.Chain' (fun a b => a.loc.endLine < b.loc.startLine)
        ((chunks.enum.foldl (chunkToDocStep hashFn content repo path lang opts)
          ⟨[], 0⟩).docs) := by
  have hbase : docInv repo path 0 ⟨[], 0⟩ := by
    refine ⟨?_, ?_, ?_, ?_, ?_⟩ <;> simp
  have h := chunkFold_inv hashFn content repo path lang opts chunks 0 _ hbase
  rw [show List.enumFrom 0 chunks = chunks.enum from rfl] at h
  exact ⟨h.2.2.2.2, h.1, h.2.1⟩

/-- C7: for every file content, the documents `chunkFile` produces have
pairwise distinct ids, satisfy `startLine ≤ endLine`, and successive
documents have non-overlapping, increasing line ranges. -/
theorem C7_chunk_documents_invariants (hashFn : Str → Str)
    (content repo path : Str) (opts : ChunkingOptions) :
    List.Pairwise (fun a b => a.id ≠ b.id)
        (chunkFile hashFn content repo path opts) ∧
      (∀ d ∈ chunkFile hashFn content repo path opts,
        d.loc.startLine ≤ d.loc.endLine) ∧
      List.Chain' (fun a b => a.loc.endLine < b.loc.startLine)
        (chunkFile hashFn content repo path opts) := by
  exact docsFold_props hashFn content repo path _ opts _

theorem excerptFold_inv (hashFn : Str → Str) (content repo path lang : Str)
    (opts : ChunkingOptions) :
    ∀ (l : List (Nat × Str)) (st : DocBuildState),
      (∀ d ∈ st.docs, d.contentExcerpt ≠ [] ∧
        d.contentExcerpt.length ≤ maxOf opts) →
      ∀ d ∈ (l.foldl (chunkToDocStep hashFn content repo path lang opts)
          st).docs,
        d.contentExcerpt ≠ [] ∧ d.contentExcerpt.length ≤ maxOf opts := by
  intro l
  induction l with
  | nil => intro st h; exact h
  | cons x rest ih =>
    intro st h
    refine ih _ ?_
    intro d hd
    dsimp only [chunkToDocStep] at hd
    split at hd
    · exact h d hd
    · split at hd
      · exact h d hd
      · rcases List.mem_append.mp hd with hm | hm
        · exact h d hm
        · simp only [List.mem_singleton] at hm
          subst hm
          refine ⟨by assumption, ?_⟩
          refine le_trans (jsTrim_length_le _) ?_
          rw [List.length_take]
          exact min_le_left _ _

/-- C6 (amended): every document `chunkFile` produces has a non-empty
content excerpt of length at most `maxChunkSize`. -/
theorem C6_amended_excerpt_bounds (hashFn : Str → Str)
    (content repo path : Str) (opts : ChunkingOptions) :
    ∀ d ∈ chunkFile hashFn content repo path opts,
      d.contentExcerpt ≠ [] ∧ d.contentExcerpt.length ≤ maxOf opts := by
  exact excerptFold_inv hashFn content repo path _ opts _ _ (by simp)

/-- C6 (counterexample): on `mdProbe` with `minChunkSize = 10`, the first
document is not the final one yet its excerpt has length 5 < 10: the
markdown force-split pushes the lines before the last blank line as a chunk
without any minimum-size check. -/
theorem C6_counterexample_short_nonfinal_chunk :
    ((chunkFile probeHash mdProbe ("r").data ("a.md").data probeOpts).map
        (fun d => d.contentExcerpt.length)) = [5, 19] ∧
      ¬ (∀ d ∈ (chunkFile probeHash mdProbe ("r").data ("a.md").data
            probeOpts).dropLast,
          minOf probeOpts ≤ d.contentExcerpt.length) := by
  exact ⟨by decide, by decide⟩

/-- Witness for C6 (amended): the bounds at a concrete document of a
concrete file. -/
theorem C6_amended_witness :
    ((chunkFile probeHash mdProbe ("r").data ("a.md").data probeOpts).get
        ⟨0, by decide⟩).contentExcerpt ≠ [] ∧
      ((chunkFile probeHash mdProbe ("r").data ("a.md").data probeOpts).get
        ⟨0, by decide⟩).contentExcerpt.length ≤ maxOf probeOpts :=
  C6_amended_excerpt_bounds probeHash mdProbe ("r").data ("a.md").data probeOpts
    _ (List.get_mem ..)

/-- Witness for C7 at `mdProbe`. -/
theorem C7_witness :
    List.Pairwise (fun a b => a.id ≠ b.id)
        (chunkFile probeHash mdProbe ("r").data ("a.md").data probeOpts) ∧
      (∀ d ∈ chunkFile probeHash mdProbe ("r").data ("a.md").data probeOpts,
        d.loc.startLine ≤ d.loc.endLine) ∧
      List.Chain' (fun a b => a.loc.endLine < b.loc.startLine)
        (chunkFile probeHash mdProbe ("r").data ("a.md").data probeOpts) :=
  C7_chunk_documents_invariants probeHash mdProbe ("r").data ("a.md").data probeOpts

/-- C10: on `entropyProbe`, `scanAndRedact` reports a high-entropy finding
with positive count while returning the content unchanged: the detection
ran on the punctuation-stripped form of the token, which does not occur in
the text, so the global replacement was a no-op and the secret stays
unmasked. -/
theorem C10_entropy_finding_without_redaction :
    (scanAndRedact entropyProbe).hasSecrets = true ∧
      (scanAndRedact entropyProbe).redactedContent = entropyProbe ∧
      (scanAndRedact entropyProbe).secretsFound = [(highEntropyName, 1)] := by
  decide

/-- C5: `scanAndRedact` is not idempotent. On `idempotenceProbe` the first
pass replaces the high-entropy token, gluing `[REDACTED]` behind
`abcdefgh;`; the second pass strips that word to `abcdefghREDACTED`, finds
it high-entropy, and replaces its occurrence inside the third word, so the
text changes again. -/
theorem C5_redact_not_idempotent :
    (scanAndRedact idempotenceProbe).redactedContent =
        ("abcdefgh;[REDACTED] [REDACTED] abcdefghREDACTEDaaaaaaaa").data ∧
      (scanAndRedact ((scanAndRedact idempotenceProbe).redactedContent)).redactedContent =
        ("abcdefgh;[REDACTED] [REDACTED] [REDACTED]aaaaaaaa").data ∧
      (scanAndRedact ((scanAndRedact idempotenceProbe).redactedContent)).redactedContent ≠
        (scanAndRedact idempotenceProbe).redactedContent := by
  refine ⟨by decide, by decide, by decide⟩

/-! ## `chunking.ts` -/

set_option maxRecDepth 4000 in
/-- C8 (counterexample): a knowledge base whose vector map holds the key
`ghost`, which references no document id, passes `validateKB` and is
written by `writeKB`: referential integrity between the vector map and the
documents is never checked. -/
theorem C8_counterexample_orphan_vector_key :
    (validateKB kbOrphan).valid = true ∧
      writeKB kbOrphan (("dist").data) =
        Except.ok [ { fileName := ("dist/kb.json").data, pretty := true },
                    { fileName := ("dist/kb.min.json").data, pretty := false } ] ∧
      (∃ e ∈ (kbOrphan.index.embeddingsLite.getD []),
        ∀ d ∈ kbOrphan.docs, e.1 ≠ d.id) := by
  refine ⟨by decide, by rfl, by decide⟩

/-- C8 (amended): `writeKB` writes its two files exactly when `validateKB`
passes and the serialized size is within the 20 MiB ceiling, and fails with
an error before any write otherwise; a valid artifact has
`meta.docCount = docs.length` and a present serialized text index. The
missing piece of the original claim is the vector-map referential
integrity, which is not validated (see the counterexample). -/
theorem C8_amended_validation_gates_write (kb : KnowledgeBase) (outputDir : Str) :
    (writeKB kb outputDir =
        Except.ok [ { fileName := outputDir ++ ("/kb.json").data, pretty := true },
                    { fileName := outputDir ++ ("/kb.min.json").data, pretty := false } ]
      ↔ (validateKB kb).valid = true ∧ ensureSizeConstraint kb = true) ∧
    ((writeKB kb outputDir).isOk = false →
      ∀ w : List FileWrite, writeKB kb outputDir ≠ Except.ok w) ∧
    ((validateKB kb).valid = true →
      kb.meta.docCount = (kb.docs.length : Int) ∧ kb.index.lunrIndex ≠ []) := by
  refine ⟨?_, ?_, ?_⟩
  · unfold writeKB
    constructor
    · intro h
      by_cases h1 : (validateKB kb).valid
      · by_cases h2 : ensureSizeConstraint kb
        · exact ⟨h1, h2⟩
        · simp [h1, h2] at h
      · simp [h1] at h
    · rintro ⟨h1, h2⟩
      simp [h1, h2]
  · intro h w
    intro hc
    rw [hc] at h
    simp [Except.isOk, Except.toBool] at h
  · intro hv
    unfold validateKB at hv
    simp only [decide_eq_true_eq, List.append_eq_nil] at hv
    refine ⟨?_, ?_⟩
    · by_contra hc
      have h4 := hv.1.1
      unfold metaErrors at h4
      simp only [List.append_eq_nil] at h4
      have h5 := h4.2
      rw [if_neg hc] at h5
      simp at h5
    · intro hc
      have h5 := hv.2
      rw [if_pos hc] at h5
      simp at h5

theorem initializeIndex_populated (env : FetchEnv) (s : EngineState)
    (h1 : s.searchIndex.isSome) (h2 : s.kbData.isSome) :
    initializeIndex env s = { result := .ok (), state := s, fetches := 0, parses := 0 } := by
  unfold initializeIndex
  rw [if_pos]
  simp [h1, h2]

theorem runInit_populated (env : FetchEnv) (s : EngineState)
    (h1 : s.searchIndex.isSome) (h2 : s.kbData.isSome) :
    ∀ n, runInit env n s = (s, 0, 0) := by
  intro n
  induction n with
  | zero => rfl
  | succ m ih =>
    unfold runInit
    rw [initializeIndex_populated env s h1 h2]
    simp only [ih]

/-- C9: with a fetchable artifact, any positive number of successive
`initializeIndex` calls from the fresh module state performs exactly one
fetch and one parse; the first call populates both module caches, later
calls reuse them; a cached loader state survives any further call and is
released only by `clearKBCache`. -/
theorem C9_load_once_memoized (env : FetchEnv) (kb : KnowledgeBase) (n : Nat)
    (hmin : env.fetchMin = some kb) (hn : 0 < n) :
    (runInit env n freshEngineState).2.1 = 1 ∧
      (runInit env n freshEngineState).2.2 = 1 ∧
      (runInit env n freshEngineState).1.kbData = some kb ∧
      (runInit env n freshEngineState).1.loader.cachedKB = some kb ∧
      (∀ (env2 : FetchEnv) (s : EngineState) (kb2 : KnowledgeBase),
        s.loader.cachedKB = some kb2 →
          (initializeIndex env2 s).state.loader.cachedKB = some kb2 ∧
            (loadKB env2 s.loader).fetches = 0) ∧
      clearKBCache (runInit env n freshEngineState).1.loader = { cachedKB := none } := by
  have hstep : initializeIndex env freshEngineState =
      { result := .ok (),
        state := { loader := { cachedKB := some kb },
                   searchIndex := some kb.index.lunrIndex, kbData := some kb },
        fetches := 1, parses := 1 } := by
    unfold initializeIndex freshEngineState loadKB
    simp [hmin]
  have hpreserve : ∀ (env2 : FetchEnv) (s : EngineState) (kb2 : KnowledgeBase),
      s.loader.cachedKB = some kb2 →
        (initializeIndex env2 s).state.loader.cachedKB = some kb2 ∧
          (loadKB env2 s.loader).fetches = 0 := by
    intro env2 s kb2 hc
    have hload : loadKB env2 s.loader =
        { result := .ok kb2, state := s.loader, fetches := 0 } := by
      unfold loadKB
      rw [hc]
    constructor
    · unfold initializeIndex
      split
      · exact hc
      · rw [hload]
        exact hc
    · rw [hload]
  obtain ⟨m, rfl⟩ : ∃ m, n = m + 1 := ⟨n - 1, by omega⟩
  have hrun : runInit env (m + 1) freshEngineState =
      ({ loader := { cachedKB := some kb },
         searchIndex := some kb.index.lunrIndex, kbData := some kb }, 1, 1) := by
    simp only [runInit]
    rw [hstep]
    dsimp only
    rw [runInit_populated env _ (by simp) (by simp) m]
    rfl
  rw [hrun]
  exact ⟨rfl, rfl, rfl, rfl, hpreserve, rfl⟩

/-- Witness for C9: two calls on a concrete environment fetch and parse
exactly once. -/
theorem C9_witness :
    (runInit ⟨some kbOrphan, none⟩ 2 freshEngineState).2.1 = 1 ∧
      (runInit ⟨some kbOrphan, none⟩ 2 freshEngineState).2.2 = 1 ∧
      (runInit ⟨some kbOrphan, none⟩ 2 freshEngineState).1.kbData = some kbOrphan ∧
      (runInit ⟨some kbOrphan, none⟩ 2 freshEngineState).1.loader.cachedKB = some kbOrphan ∧
      (∀ (env2 : FetchEnv) (s : EngineState) (kb2 : KnowledgeBase),
        s.loader.cachedKB = some kb2 →
          (initializeIndex env2 s).state.loader.cachedKB = some kb2 ∧
            (loadKB env2 s.loader).fetches = 0) ∧
      clearKBCache (runInit ⟨some kbOrphan, none⟩ 2 freshEngineState).1.loader =
        { cachedKB := none } :=
  C9_load_once_memoized ⟨some kbOrphan, none⟩ kbOrphan 2 rfl (by decide)

/-- C1 (counterexample): the claim asserts that keyword score 0.8 and
semantic score 0.6, keyword inserted first, combine to
`((0.8*0.6)+(0.6*0.4))/(1+0.4) = 0.4286`; the formula is what the code
computes, but its value is 18/35 = 0.5142857..., not 0.4286. -/
theorem C1_counterexample_combined_score_value :
    ((combineScores [{ doc := docA, score := 0.8 }]
        [{ doc := docA, score := 0.6 }]).map (fun e => e.2.score)) =
      [(0.8 * 0.6 + 0.6 * 0.4) / (1 + 0.4)] ∧
      ((0.8 * 0.6 + 0.6 * 0.4) / (1 + 0.4) : Rat) = 18 / 35 ∧
      ((combineScores [{ doc := docA, score := 0.8 }]
        [{ doc := docA, score := 0.6 }]).map (fun e => e.2.score)) ≠ [0.4286] := by
  have h : ((combineScores [{ doc := docA, score := 0.8 }]
      [{ doc := docA, score := 0.6 }]).map (fun e => e.2.score)) =
      [(0.8 * 0.6 + 0.6 * 0.4) / (1 + 0.4)] := by
    simp [combineScores, combineKeywordStep, combineSemanticStep, mapGet, mapSet]
    norm_num
  refine ⟨h, by norm_num, ?_⟩
  rw [h]
  norm_num

/-- C1 (amended): hybrid search combines per-document scores by the
order-dependent running weighted average: a keyword result is inserted with
its score times 0.6, a semantic result with its score times 0.4, and a
collision recomputes `(existing + incoming·w) / (1 + w)`; for keyword score
0.8 and semantic 0.6 (keyword first) this gives
`((0.8·0.6)+(0.6·0.4))/(1+0.4)`, i.e. 18/35 ≈ 0.5143. -/
theorem C1_amended_running_average (kw sem : Rat) :
    ((combineScores [{ doc := docA, score := kw }]
        [{ doc := docA, score := sem }]).map (fun e => e.2.score)) =
      [(kw * 0.6 + sem * 0.4) / (1 + 0.4)] ∧
      ((combineScores [{ doc := docA, score := kw }]
        [{ doc := docB, score := sem }]).map (fun e => e.2.score)) =
      [kw * 0.6, sem * 0.4] := by
  constructor
  · simp [combineScores, combineKeywordStep, combineSemanticStep, mapGet, mapSet]
    norm_num
  · simp [combineScores, combineKeywordStep, combineSemanticStep, mapGet, mapSet,
      docA, docB]

/-- C2 (counterexample): the empty and the whitespace-only query have
fewer than 2 tokens, yet `search` returns an empty result list instead of
failing with the validation error, in every mode. -/
theorem C2_counterexample_empty_query_returns_ok :
    search kbSem noLunr noSem ("").data none 20 .keyword = .ok [] ∧
      search kbSem noLunr noSem ("  ").data none 20 .semantic = .ok [] ∧
      search kbSem noLunr noSem ("  ").data none 20 .hybrid = .ok [] := by
  refine ⟨by rfl, by rfl, by rfl⟩

/-- C2 (amended): a query whose trimmed text is non-empty but holds fewer
than 2 whitespace-delimited tokens fails with the validation error,
uniformly in all three modes; a query that trims to nothing returns an
empty result list instead. -/
theorem C2_amended_validation (kb : KnowledgeBase)
    (lunr : Str → List LunrResult)
    (sem : Str → Option SearchFilters → Nat → Except Str (List SearchResult))
    (query : Str) (filters : Option SearchFilters) (limit : Nat)
    (mode : SearchMode) :
    (jsTrim query = [] → search kb lunr sem query filters limit mode = .ok []) ∧
      (jsTrim query ≠ [] →
        ((splitWs (jsTrim query)).filter (fun w => w.length > 0)).length < 2 →
        search kb lunr sem query filters limit mode = .error minWordsMsg) := by
  constructor
  · intro h
    unfold search
    dsimp only
    rw [if_pos h]
  · intro h1 h2
    unfold search
    dsimp only
    rw [if_neg h1, if_pos h2]

/-- C3 (counterexample): with limit 1, three positively-similar documents
and a filter that only the lowest-ranked one passes, `semanticSearch`
returns nothing - the claim's pipeline (filters before the cut to `limit`)
would return that document: the code cuts to `2·limit` candidates before
filtering. -/
theorem C3_counterexample_filtered_candidate_dropped :
    semanticSearch embedConst kbSem ("x y").data (some goFilter) 1 = .ok [] ∧
      specSemanticSearch embedConst kbSem ("x y").data (some goFilter) 1 =
        .ok [{ doc := docGo, score := { num := 1, sq := 5 } }] ∧
      semanticSearch embedConst kbSem ("x y").data (some goFilter) 1 ≠
        specSemanticSearch embedConst kbSem ("x y").data (some goFilter) 1 := by
  have h1 : semanticSearch embedConst kbSem ("x y").data (some goFilter) 1 = .ok [] := by
    norm_num +decide [semanticSearch, hasEmbeddings, kbSem, generateQueryEmbedding, embedConst,
      cosineSimilarity, simIsPos, sortSimsDesc, insertSimDesc, simGe, collectSemResults,
      semLookup, passesFilters, goFilter, docA, docB, docGo, fileExtOf, lowerStr,
      asciiLower, splitOnChar, List.find?, List.filterMap, List.foldr, List.foldl,
      List.take, List.zip, List.zipWith]
  have h2 : specSemanticSearch embedConst kbSem ("x y").data (some goFilter) 1 =
      .ok [{ doc := docGo, score := { num := 1, sq := 5 } }] := by
    norm_num +decide [specSemanticSearch, hasEmbeddings, kbSem, generateQueryEmbedding, embedConst,
      cosineSimilarity, simIsPos, sortSimsDesc, insertSimDesc, simGe,
      semLookup, passesFilters, goFilter, docA, docB, docGo, fileExtOf, lowerStr,
      asciiLower, splitOnChar, List.find?, List.filterMap, List.foldr, List.foldl,
      List.take, List.zip, List.zipWith]
  refine ⟨h1, h2, ?_⟩
  rw [h1, h2]
  simp

theorem collectSemResults_acc (kb : KnowledgeBase)
    (filters : Option SearchFilters) (limit : Nat) :
    ∀ (l : List (Str × SimValue)) (acc : List SemResult), acc.length < limit →
      collectSemResults kb filters limit l acc =
        acc.reverse ++ (l.filterMap (semLookup kb filters)).take (limit - acc.length) := by
  intro l
  induction l with
  | nil => intro acc h; simp [collectSemResults]
  | cons c rest ih =>
    intro acc h
    unfold collectSemResults
    cases hc : semLookup kb filters c with
    | none => simp only [List.filterMap_cons, hc]; exact ih acc h
    | some r =>
      simp only [List.filterMap_cons, hc]
      by_cases hlim : limit ≤ (r :: acc).length
      · rw [if_pos hlim]
        have hlen : limit - acc.length = 1 := by
          simp only [List.length_cons] at hlim
          omega
        rw [hlen]
        simp
      · rw [if_neg hlim]
        push_neg at hlim
        rw [ih (r :: acc) hlim]
        have hlen : limit - acc.length = (limit - (r :: acc).length) + 1 := by
          simp only [List.length_cons]
          omega
        rw [hlen]
        simp

theorem collectSemResults_eq (kb : KnowledgeBase)
    (filters : Option SearchFilters) (limit : Nat)
    (l : List (Str × SimValue)) (h : 0 < limit ∨ l = []) :
    collectSemResults kb filters limit l [] =
      (l.filterMap (semLookup kb filters)).take limit := by
  rcases h with h | rfl
  · have := collectSemResults_acc kb filters limit l [] (by simpa using h)
    simpa using this
  · simp [collectSemResults]

/-- C3 (amended): in semantic mode an empty or absent vector map fails
with the unavailable error (both in `search` and in `semanticSearch`); the
query vector goes through the same embedding path and 512-character cap as
build time; cosine similarity is computed against every stored vector,
non-positive similarities are discarded and the rest sorted descending;
then only the top `2·limit` candidates are looked up and filtered, in
order, until `limit` results are collected. -/
theorem C3_amended_semantic_pipeline (embed : Str → List Rat)
    (kb : KnowledgeBase) (lunr : Str → List LunrResult)
    (sem : Str → Option SearchFilters → Nat → Except Str (List SearchResult))
    (query : Str) (filters : Option SearchFilters) (limit : Nat) :
    (¬ hasEmbeddings kb = true →
      semanticSearch embed kb query filters limit = .error semUnavailableMsg) ∧
      (∀ t, generateQueryEmbedding embed t = buildGenerateEmbedding embed t) ∧
      (jsTrim query ≠ [] →
        ¬ ((splitWs (jsTrim query)).filter (fun w => w.length > 0)).length < 2 →
        kb.index.embeddingsLite.getD [] = [] →
        search kb lunr sem query filters limit .semantic = .error unavailableMsg) ∧
      (hasEmbeddings kb = true →
        semanticSearch embed kb query filters limit =
          .ok ((((sortSimsDesc ((kb.index.embeddingsLite.getD []).filterMap
              (fun e =>
                if simIsPos (cosineSimilarity (generateQueryEmbedding embed query) e.2) then
                  some (e.1, cosineSimilarity (generateQueryEmbedding embed query) e.2)
                else none))).take (limit * 2)).filterMap
            (semLookup kb filters)).take limit)) := by
  refine ⟨?_, fun t => rfl, ?_, ?_⟩
  · intro h
    unfold semanticSearch
    rw [if_pos]
    simpa using h
  · intro h1 h2 h3
    unfold search
    dsimp only
    rw [if_neg h1, if_neg h2]
    simp only [h3]
    rfl
  · intro h
    unfold semanticSearch
    rw [if_neg (by simpa using h)]
    dsimp only
    rcases Nat.eq_zero_or_pos limit with hl | hl
    · subst hl
      simp only [Nat.zero_mul, List.take_zero]
      rw [collectSemResults_eq kb filters 0 [] (Or.inr rfl)]
      simp
    · rw [collectSemResults_eq kb filters limit _ (Or.inl hl)]

theorem pairwise_filterMap_of {α β : Type} (f : α → Option β)
    (R : α → α → Prop) (S : β → β → Prop)
    (h : ∀ a b x y, R a b → f a = some x → f b = some y → S x y) :
    ∀ l : List α, l.Pairwise R → (l.filterMap f).Pairwise S := by
  intro l
  induction l with
  | nil => intro _; simp
  | cons a rest ih =>
    intro hp
    rw [List.filterMap_cons]
    rcases List.pairwise_cons.mp hp with ⟨ha, hrest⟩
    cases hf : f a with
    | none => exact ih hrest
    | some x =>
      rw [List.pairwise_cons]
      refine ⟨?_, ih hrest⟩
      intro y hy
      obtain ⟨b, hb, hfb⟩ := List.mem_filterMap.mp hy
      exact h a b x y (ha b hb) hf hfb

theorem mapKeywordResult_spec (kb : KnowledgeBase)
    (filters : Option SearchFilters) (r : LunrResult) (x : SearchResult)
    (h : mapKeywordResult kb filters r = some x) :
    x.doc.id = r.ref ∧ x.score = r.score := by
  unfold mapKeywordResult at h
  cases hf : kb.docs.find? (fun d => d.id = r.ref) with
  | none => rw [hf] at h; exact absurd h (by simp)
  | some doc =>
    rw [hf] at h
    dsimp only at h
    have hid : doc.id = r.ref := by
      have := List.find?_some hf
      simpa using this
    by_cases hp : passesFilters filters doc
    · rw [if_pos hp] at h
      injection h with h
      subst h
      exact ⟨hid, rfl⟩
    · rw [if_neg hp] at h
      exact absurd h (by simp)

theorem foldl_combineKeywordStep_eq :
    ∀ (kws : List SearchResult) (m : List (Str × SearchResult)),
      (∀ r ∈ kws, ∀ e ∈ m, e.1 ≠ r.doc.id) →
      List.Pairwise (fun a b => a.doc.id ≠ b.doc.id) kws →
      kws.foldl combineKeywordStep m =
        m ++ kws.map (fun r => (r.doc.id, { r with score := r.score * 0.6 })) := by
  intro kws
  induction kws with
  | nil => intro m _ _; simp
  | cons r rest ih =>
    intro m hdisj hp
    rcases List.pairwise_cons.mp hp with ⟨hr, hrest⟩
    rw [List.foldl_cons]
    have hnone : ∀ e ∈ m, ¬ (e.1 = r.doc.id) := by
      intro e he
      exact hdisj r (by simp) e he
    have hget : mapGet m r.doc.id = none := by
      unfold mapGet
      rw [List.find?_eq_none.mpr]
      · rfl
      · intro e he
        simpa using hnone e he
    have hstep : combineKeywordStep m r =
        m ++ [(r.doc.id, { r with score := r.score * 0.6 })] := by
      unfold combineKeywordStep
      rw [hget]
      unfold mapSet
      rw [if_neg]
      simp only [List.any_eq_true, not_exists, not_and]
      intro e he
      simpa using hnone e he
    rw [hstep, ih]
    · simp
    · intro r2 hr2 e he
      rcases List.mem_append.mp he with hm | hm
      · exact hdisj r2 (by simp [hr2]) e hm
      · simp only [List.mem_singleton] at hm
        subst hm
        exact hr r2 hr2
    · exact hrest

theorem sortByScoreDesc_sorted :
    ∀ (l : List SearchResult),
      List.Pairwise (fun a b => b.score ≤ a.score) l →
      sortByScoreDesc l = l := by
  intro l
  induction l with
  | nil => intro _; rfl
  | cons a rest ih =>
    intro h
    rcases List.pairwise_cons.mp h with ⟨ha, hrest⟩
    unfold sortByScoreDesc
    rw [List.foldr_cons]
    have : List.foldr insertByScoreDesc [] rest = rest := ih hrest
    rw [this]
    cases rest with
    | nil => rfl
    | cons b rest2 =>
      unfold insertByScoreDesc
      rw [if_neg]
      exact not_lt.mpr (ha b (by simp))

/-- C4: without vectors, hybrid returns the same documents in the same
order as keyword mode. -/
theorem C4_hybrid_equals_keyword_without_vectors (kb : KnowledgeBase)
    (lunr : Str → List LunrResult)
    (sem : Str → Option SearchFilters → Nat → Except Str (List SearchResult))
    (query : Str) (filters : Option SearchFilters) (limit : Nat)
    (hemb : kb.index.embeddingsLite.getD [] = [])
    (hlunr : List.Pairwise (fun a b => a.ref ≠ b.ref ∧ b.score ≤ a.score)
      (lunr (jsTrim query))) :
    (search kb lunr sem query filters limit .hybrid).map
        (List.map (fun r => r.doc)) =
      (search kb lunr sem query filters limit .keyword).map
        (List.map (fun r => r.doc)) := by
  unfold search
  dsimp only
  by_cases h1 : jsTrim query = []
  · simp only [if_pos h1]
  · simp only [if_neg h1]
    by_cases h2 : ((splitWs (jsTrim query)).filter (fun w => w.length > 0)).length < 2
    · simp only [if_pos h2]
    · simp only [if_neg h2]
      simp only [hemb, decide_True, decide_False, Bool.or_true, Bool.false_or,
        Bool.or_false, if_true, if_false, reduceCtorEq, reduceIte]
      set kws := (List.take (limit * 2)
        (List.filterMap (mapKeywordResult kb filters)
          (List.take (limit * 3) (lunr (jsTrim query))))) with hkws
      have hS : List.Pairwise
          (fun a b : SearchResult => a.doc.id ≠ b.doc.id ∧ b.score ≤ a.score) kws := by
        apply List.Pairwise.sublist (List.take_sublist _ _)
        apply pairwise_filterMap_of (mapKeywordResult kb filters)
          (fun a b => a.ref ≠ b.ref ∧ b.score ≤ a.score) _ ?_ _
          (List.Pairwise.sublist (List.take_sublist _ _) hlunr)
        intro a b x y hab hfa hfb
        obtain ⟨hxa, hsa⟩ := mapKeywordResult_spec kb filters a x hfa
        obtain ⟨hxb, hsb⟩ := mapKeywordResult_spec kb filters b y hfb
        constructor
        · rw [hxa, hxb]; exact hab.1
        · rw [hsa, hsb]; exact hab.2
      have hcomb : combineScores kws [] =
          kws.map (fun r => (r.doc.id, { r with score := r.score * 0.6 })) := by
        unfold combineScores
        rw [List.foldl_nil]
        exact foldl_combineKeywordStep_eq kws [] (by simp)
          (hS.imp (fun h => h.1))
      rw [hcomb, List.map_map]
      have hcompose : ((fun e : Str × SearchResult => e.2) ∘
          (fun r : SearchResult => (r.doc.id, { r with score := r.score * 0.6 }))) =
          (fun r : SearchResult => { r with score := r.score * 0.6 }) := rfl
      rw [hcompose]
      have hsorted : sortByScoreDesc
          (kws.map (fun r => { r with score := r.score * 0.6 })) =
          kws.map (fun r => { r with score := r.score * 0.6 }) := by
        apply sortByScoreDesc_sorted
        rw [List.pairwise_map]
        apply hS.imp
        intro a b h
        dsimp only
        exact mul_le_mul_of_nonneg_right h.2 (by norm_num)
      rw [hsorted]
      simp only [Except.map, List.map_take, List.map_map]
      rfl

/-- Witness for C4 at a concrete two-document artifact without vectors. -/
theorem C4_witness :
    (search kbNoVec lunrTwo noSem ("alpha beta").data none 5 .hybrid).map
        (List.map (fun r => r.doc)) =
      (search kbNoVec lunrTwo noSem ("alpha beta").data none 5 .keyword).map
        (List.map (fun r => r.doc)) :=
  C4_hybrid_equals_keyword_without_vectors kbNoVec lunrTwo noSem
    ("alpha beta").data none 5 (by rfl) (by decide)

/-! ### Real-number semantics of the exact similarity representation

The source compares cosine similarities as floating-point reals. The
embedding carries the exact pair `(num, sq)` for `num / √sq` and compares
with `simIsPos`/`simGe`; these theorems check those comparators against
the real-valued meaning, for the positive denominators `cosineSimilarity`
produces in the non-degenerate case. -/

/-- For `0 ≤ x`, `x·√s = √(x²·s)`. -/
theorem mulSqrt_eq (x s : ℝ) (hx : 0 ≤ x) :
    x * Real.sqrt s = Real.sqrt (x * x * s) := by
  rw [Real.sqrt_mul (mul_self_nonneg x), Real.sqrt_mul_self hx]

/-- `simIsPos` agrees with the sign of the real value `num / √sq` whenever
`sq > 0`. -/
theorem simIsPos_correct (v : SimValue) (h : 0 < v.sq) :
    simIsPos v = true ↔ 0 < (v.num : ℝ) / Real.sqrt (v.sq : ℝ) := by
  have hs : (0 : ℝ) < Real.sqrt (v.sq : ℝ) := Real.sqrt_pos.mpr (by exact_mod_cast h)
  unfold simIsPos
  rw [decide_eq_true_eq, div_pos_iff]
  constructor
  · intro hv
    exact Or.inl ⟨by exact_mod_cast hv, hs⟩
  · rintro (⟨hv, _⟩ | ⟨_, hneg⟩)
    · exact_mod_cast hv
    · exact absurd hs (not_lt.mpr hneg.le)

/-- `simGe` agrees with the real comparison `num_b / √sq_b ≤ num_a / √sq_a`
whenever both denominators are positive, so `sortSimsDesc` orders by the
real similarity value. -/
theorem simGe_correct (a b : SimValue) (ha : 0 < a.sq) (hb : 0 < b.sq) :
    simGe a b = true ↔
      (b.num : ℝ) / Real.sqrt (b.sq : ℝ) ≤ (a.num : ℝ) / Real.sqrt (a.sq : ℝ) := by
  have hsa : (0 : ℝ) < Real.sqrt (a.sq : ℝ) := Real.sqrt_pos.mpr (by exact_mod_cast ha)
  have hsb : (0 : ℝ) < Real.sqrt (b.sq : ℝ) := Real.sqrt_pos.mpr (by exact_mod_cast hb)
  unfold simGe
  rw [div_le_div_iff₀ hsb hsa]
  by_cases h1 : (0 : Rat) ≤ a.num
  · rw [if_pos h1]
    have h1r : (0 : ℝ) ≤ (a.num : ℝ) := by exact_mod_cast h1
    by_cases h2 : b.num ≤ (0 : Rat)
    · rw [if_pos h2]
      simp only [true_iff]
      calc (b.num : ℝ) * Real.sqrt (a.sq : ℝ) ≤ 0 :=
            mul_nonpos_of_nonpos_of_nonneg (by exact_mod_cast h2) hsa.le
        _ ≤ (a.num : ℝ) * Real.sqrt (b.sq : ℝ) := mul_nonneg h1r hsb.le
    · rw [if_neg h2]
      push_neg at h2
      have h2r : (0 : ℝ) ≤ (b.num : ℝ) := by exact_mod_cast h2.le
      rw [decide_eq_true_eq,
        mulSqrt_eq _ _ h2r, mulSqrt_eq _ _ h1r,
        Real.sqrt_le_sqrt_iff
          (mul_nonneg (mul_self_nonneg _) (by exact_mod_cast hb.le))]
      constructor
      · intro h
        exact_mod_cast h
      · intro h
        exact_mod_cast h
  · rw [if_neg h1]
    push_neg at h1
    have h1r : ((a.num : ℝ)) < 0 := by exact_mod_cast h1
    by_cases h2 : (0 : Rat) ≤ b.num
    · rw [if_pos h2]
      simp only [Bool.false_eq_true, false_iff, not_le]
      have h2r : (0 : ℝ) ≤ (b.num : ℝ) := by exact_mod_cast h2
      calc (a.num : ℝ) * Real.sqrt (b.sq : ℝ) < 0 :=
            mul_neg_of_neg_of_pos h1r hsb
        _ ≤ (b.num : ℝ) * Real.sqrt (a.sq : ℝ) := mul_nonneg h2r hsa.le
    · rw [if_neg h2]
      push_neg at h2
      have h2r : ((b.num : ℝ)) < 0 := by exact_mod_cast h2
      have hna : (0 : ℝ) ≤ -(a.num : ℝ) := by linarith
      have hnb : (0 : ℝ) ≤ -(b.num : ℝ) := by linarith
      have e1 : -((a.num : ℝ) * Real.sqrt (b.sq : ℝ)) =
          Real.sqrt ((a.num : ℝ) * a.num * b.sq) := by
        calc -((a.num : ℝ) * Real.sqrt (b.sq : ℝ))
            = (-(a.num : ℝ)) * Real.sqrt (b.sq : ℝ) := by ring
          _ = Real.sqrt ((-(a.num : ℝ)) * (-(a.num : ℝ)) * (b.sq : ℝ)) :=
              mulSqrt_eq _ _ hna
          _ = Real.sqrt ((a.num : ℝ) * a.num * b.sq) := by rw [neg_mul_neg]
      have e2 : -((b.num : ℝ) * Real.sqrt (a.sq : ℝ)) =
          Real.sqrt ((b.num : ℝ) * b.num * a.sq) := by
        calc -((b.num : ℝ) * Real.sqrt (a.sq : ℝ))
            = (-(b.num : ℝ)) * Real.sqrt (a.sq : ℝ) := by ring
          _ = Real.sqrt ((-(b.num : ℝ)) * (-(b.num : ℝ)) * (a.sq : ℝ)) :=
              mulSqrt_eq _ _ hnb
          _ = Real.sqrt ((b.num : ℝ) * b.num * a.sq) := by rw [neg_mul_neg]
      rw [decide_eq_true_eq]
      conv_rhs => rw [← neg_le_neg_iff, e1, e2]
      rw [Real.sqrt_le_sqrt_iff
        (mul_nonneg (mul_self_nonneg _) (by exact_mod_cast ha.le))]
      constructor
      · intro h
        exact_mod_cast h
      · intro h
        exact_mod_cast h


/-! ### Real-number semantics of the entropy threshold

`calculateEntropy` computes `-∑ (k/n)·log2 (k/n)` over the character
frequencies and `isHighEntropySecret` compares it with `3.5`; the embedding
carries the equivalent exact inequality `2^(7n) · ∏ k^(2k) < n^(2n)` over
`ℕ`.  These theorems prove the two agree: the frequencies produced by
`charCounts` are positive and sum to the length, and for such frequency
lists the natural-number inequality holds exactly when the real entropy
exceeds `7/2`. -/

/-- Bumping the count of a key that occurs (once, by distinctness) raises
the total count by exactly 1. -/
theorem update_sum (c : Char) (acc : List (Char × Nat))
    (hkeys : acc.Pairwise (fun e f => e.1 ≠ f.1))
    (hany : acc.any (fun e => e.1 = c) = true) :
    ((acc.map (fun e => if e.1 = c then (e.1, e.2 + 1) else e)).map Prod.snd).sum
      = (acc.map Prod.snd).sum + 1 := by
  induction acc with
  | nil => simp at hany
  | cons a acc ih =>
    rcases List.pairwise_cons.mp hkeys with ⟨ha, htail⟩
    by_cases h : a.1 = c
    · have htc : ∀ b ∈ acc, ¬(b.1 = c) := fun b hb => by
        rw [← h]; exact fun hbc => ha b hb hbc.symm
      have hmap : acc.map (fun e => if e.1 = c then (e.1, e.2 + 1) else e) = acc := by
        rw [List.map_congr_left (fun b hb => if_neg (htc b hb))]
        simp
      simp only [List.map_cons, if_pos h, hmap, List.sum_cons]
      omega
    · have hany' : acc.any (fun e => e.1 = c) = true := by
        rcases List.any_eq_true.mp hany with ⟨b, hb, hbc⟩
        rcases List.mem_cons.mp hb with rfl | hb'
        · exact absurd (of_decide_eq_true hbc) h
        · exact List.any_eq_true.mpr ⟨b, hb', hbc⟩
      simp only [List.map_cons, if_neg h, List.sum_cons, ih htail hany']
      omega

/-- The `charCounts` fold keeps keys pairwise distinct, counts positive,
and the count total equal to the number of characters consumed. -/
theorem charCountsAux_inv (l : List Char) (acc : List (Char × Nat))
    (hkeys : acc.Pairwise (fun e f => e.1 ≠ f.1))
    (hpos : ∀ e ∈ acc, 0 < e.2) :
    (l.foldl (fun acc c =>
        if acc.any (fun e => e.1 = c) then
          acc.map (fun e => if e.1 = c then (e.1, e.2 + 1) else e)
        else acc ++ [(c, 1)]) acc).Pairwise (fun e f => e.1 ≠ f.1) ∧
    (∀ e ∈ l.foldl (fun acc c =>
        if acc.any (fun e => e.1 = c) then
          acc.map (fun e => if e.1 = c then (e.1, e.2 + 1) else e)
        else acc ++ [(c, 1)]) acc, 0 < e.2) ∧
    ((l.foldl (fun acc c =>
        if acc.any (fun e => e.1 = c) then
          acc.map (fun e => if e.1 = c then (e.1, e.2 + 1) else e)
        else acc ++ [(c, 1)]) acc).map Prod.snd).sum
      = (acc.map Prod.snd).sum + l.length := by
  induction l generalizing acc with
  | nil => exact ⟨hkeys, hpos, by simp⟩
  | cons c l ih =>
    simp only [List.foldl_cons, List.length_cons]
    by_cases h : acc.any (fun e => e.1 = c) = true
    · rw [if_pos h]
      have hkeys' : (acc.map (fun e => if e.1 = c then (e.1, e.2 + 1) else e)).Pairwise
          (fun e f => e.1 ≠ f.1) := by
        rw [List.pairwise_map]
        have key : ∀ e : Char × Nat,
            (if e.1 = c then (e.1, e.2 + 1) else e).1 = e.1 := by
          intro e
          by_cases h1 : e.1 = c <;> simp [h1]
        refine hkeys.imp_of_mem (fun {a b} _ _ hab => ?_)
        rw [key, key]
        exact hab
      have hpos' : ∀ e ∈ acc.map (fun e => if e.1 = c then (e.1, e.2 + 1) else e),
          0 < e.2 := by
        intro e he
        rcases List.mem_map.mp he with ⟨a, ha, rfl⟩
        by_cases h1 : a.1 = c
        · simp [h1]
        · simpa [h1] using hpos a ha
      rcases ih _ hkeys' hpos' with ⟨k1, k2, k3⟩
      refine ⟨k1, k2, ?_⟩
      rw [k3, update_sum c acc hkeys h]
      omega
    · rw [if_neg h]
      have hnc : ∀ e ∈ acc, e.1 ≠ c := by
        intro e he hec
        exact h (List.any_eq_true.mpr ⟨e, he, decide_eq_true hec⟩)
      have hkeys' : (acc ++ [(c, 1)]).Pairwise
          (fun e f : Char × Nat => e.1 ≠ f.1) := by
        rw [List.pairwise_append]
        refine ⟨hkeys, by simp, ?_⟩
        intro a ha b hb
        rw [List.mem_singleton.mp hb]
        exact hnc a ha
      have hpos' : ∀ e ∈ acc ++ [(c, 1)], 0 < e.2 := by
        intro e he
        rcases List.mem_append.mp he with he' | he'
        · exact hpos e he'
        · rw [List.mem_singleton.mp he']; exact Nat.one_pos
      rcases ih _ hkeys' hpos' with ⟨k1, k2, k3⟩
      refine ⟨k1, k2, ?_⟩
      rw [k3]
      simp
      omega

/-- Every frequency recorded by `charCounts` is positive. -/
theorem charCounts_pos (s : Str) : ∀ e ∈ charCounts s, 0 < e.2 := by
  have h := (charCountsAux_inv s [] (List.Pairwise.nil) (by simp)).2.1
  simpa [charCounts] using h

/-- The frequencies recorded by `charCounts` sum to the string length. -/
theorem charCounts_sum (s : Str) :
    ((charCounts s).map Prod.snd).sum = s.length := by
  have h := (charCountsAux_inv s [] (List.Pairwise.nil) (by simp)).2.2
  simpa [charCounts] using h

/-- `countProd` as a product over the mapped list. -/
theorem countProd_eq (cs : List (Char × Nat)) :
    countProd cs = (cs.map (fun e => e.2 ^ (2 * e.2))).prod := by
  unfold countProd
  rw [List.prod_eq_foldl, List.foldl_map]

/-- The entropy sum `-∑ (k/n)·log2 (k/n)` rewritten over a common
denominator. -/
theorem neg_entropy_sum (cs : List ℕ) (n : ℕ) (hn : 0 < n)
    (hpos : ∀ k ∈ cs, 0 < k) :
    -((cs.map fun (k : ℕ) => ((k : ℝ) / (n : ℝ)) * Real.logb 2 ((k : ℝ) / (n : ℝ))).sum)
      = ((cs.sum : ℝ) * Real.logb 2 (n : ℝ)
          - (cs.map fun (k : ℕ) => (k : ℝ) * Real.logb 2 (k : ℝ)).sum) / (n : ℝ) := by
  have hn0 : ((n : ℝ)) ≠ 0 := Nat.cast_ne_zero.mpr hn.ne'
  induction cs with
  | nil => simp
  | cons k cs ih =>
    have hk : 0 < k := hpos k (List.mem_cons_self k cs)
    have hk0 : ((k : ℝ)) ≠ 0 := Nat.cast_ne_zero.mpr hk.ne'
    have ih' := ih (fun x hx => hpos x (List.mem_cons_of_mem _ hx))
    simp only [List.map_cons, List.sum_cons]
    rw [neg_add, ih', Real.logb_div hk0 hn0]
    push_cast
    field_simp
    ring

/-- `log2` of `∏ k^(2k)` is `2·∑ k·log2 k` for positive frequencies. -/
theorem logb_countprod (cs : List ℕ) (hpos : ∀ k ∈ cs, 0 < k) :
    Real.logb 2 (((cs.map fun k => k ^ (2 * k)).prod : ℕ) : ℝ)
      = 2 * (cs.map fun (k : ℕ) => (k : ℝ) * Real.logb 2 (k : ℝ)).sum := by
  induction cs with
  | nil => simp
  | cons k cs ih =>
    have hk : 0 < k := hpos k (List.mem_cons_self k cs)
    have htail : ∀ x ∈ cs, 0 < x := fun x hx => hpos x (List.mem_cons_of_mem _ hx)
    have hP : 0 < (cs.map fun k => k ^ (2 * k)).prod := by
      apply List.prod_pos
      intro x hx
      rcases List.mem_map.mp hx with ⟨j, hj, rfl⟩
      exact pow_pos (htail j hj) _
    have h1 : ((k : ℝ)) ^ (2 * k) ≠ 0 := pow_ne_zero _ (Nat.cast_ne_zero.mpr hk.ne')
    have h2 : (((cs.map fun k => k ^ (2 * k)).prod : ℕ) : ℝ) ≠ 0 :=
      Nat.cast_ne_zero.mpr hP.ne'
    simp only [List.map_cons, List.prod_cons, List.sum_cons]
    rw [Nat.cast_mul, Nat.cast_pow, Real.logb_mul (by exact_mod_cast h1) h2,
      Real.logb_pow, ih htail]
    push_cast
    ring

/-- The analytic core: for positive frequencies summing to `n > 0`, the
exact inequality `2^(7n) · ∏ k^(2k) < n^(2n)` holds iff the Shannon
entropy of the frequency distribution exceeds `7/2`. -/
theorem entropy_count_iff (cs : List ℕ) (n : ℕ) (hn : 0 < n)
    (hpos : ∀ k ∈ cs, 0 < k) (hsum : cs.sum = n) :
    (2 ^ (7 * n) * (cs.map fun k => k ^ (2 * k)).prod < n ^ (2 * n)) ↔
      (7 : ℝ) / 2 <
        -((cs.map fun (k : ℕ) => ((k : ℝ) / (n : ℝ)) * Real.logb 2 ((k : ℝ) / (n : ℝ))).sum) := by
  have hNpos : (0 : ℝ) < (n : ℝ) := by exact_mod_cast hn
  have hP : 0 < (cs.map fun k => k ^ (2 * k)).prod := by
    apply List.prod_pos
    intro x hx
    rcases List.mem_map.mp hx with ⟨j, hj, rfl⟩
    exact pow_pos (hpos j hj) _
  have hPr : (0 : ℝ) < (((cs.map fun k => k ^ (2 * k)).prod : ℕ) : ℝ) := by
    exact_mod_cast hP
  rw [neg_entropy_sum cs n hn hpos, hsum, lt_div_iff₀ hNpos]
  have hcast : (2 ^ (7 * n) * (cs.map fun k => k ^ (2 * k)).prod < n ^ (2 * n)) ↔
      ((2 : ℝ) ^ (7 * n) * (((cs.map fun k => k ^ (2 * k)).prod : ℕ) : ℝ)
        < ((n : ℝ)) ^ (2 * n)) := by
    constructor
    · intro h
      exact_mod_cast h
    · intro h
      exact_mod_cast h
  rw [hcast,
    ← Real.logb_lt_logb_iff (b := 2) one_lt_two (by positivity) (by positivity),
    Real.logb_mul (by positivity) hPr.ne', logb_countprod cs hpos,
    Real.logb_pow, Real.logb_pow, Real.logb_self_eq_one one_lt_two]
  push_cast
  constructor
  · intro h
    linarith
  · intro h
    linarith

/-- `entropyGtThreshold` agrees with the source's real-valued test
`calculateEntropy(s) > 3.5` on every non-empty string. -/
theorem entropyGtThreshold_correct (s : Str) (hs : s ≠ []) :
    entropyGtThreshold s = true ↔
      (7 : ℝ) / 2 <
        -(((charCounts s).map (fun e =>
            ((e.2 : ℝ) / (s.length : ℝ)) * Real.logb 2 ((e.2 : ℝ) / (s.length : ℝ)))).sum) := by
  have hn : 0 < s.length := List.length_pos.mpr hs
  have hpos := charCounts_pos s
  have hsum := charCounts_sum s
  unfold entropyGtThreshold
  rw [decide_eq_true_eq]
  have hcp : countProd (charCounts s)
      = (((charCounts s).map Prod.snd).map fun k => k ^ (2 * k)).prod := by
    rw [countProd_eq, List.map_map]
    rfl
  have hent : ((charCounts s).map (fun e =>
        ((e.2 : ℝ) / (s.length : ℝ)) * Real.logb 2 ((e.2 : ℝ) / (s.length : ℝ)))).sum
      = (((charCounts s).map Prod.snd).map fun (k : ℕ) =>
          ((k : ℝ) / (s.length : ℝ)) * Real.logb 2 ((k : ℝ) / (s.length : ℝ))).sum := by
    rw [List.map_map]
    rfl
  rw [hcp, hent]
  refine entropy_count_iff _ s.length hn ?_ hsum
  intro k hk
  rcases List.mem_map.mp hk with ⟨e, he, rfl⟩
  exact hpos e he
